import Mathlib

/-!
Verification of the multi-engine OCR comparison core.

Shallow embedding of `src/modules/ocr_comparison/comparison_manager.py`
(`OCRComparisonManager`) together with the parts of Python's
`difflib.SequenceMatcher` that the manager calls with `isjunk=None` and the
default `autojunk=True`.  Word sequences are `List String`, character
sequences are `List Char`; both go through the same generic matcher.
Floating-point ratios are modelled as exact rationals (`ℚ`); the constants
`0.0` and `1.0` compared against in the source are exactly representable, and
no claim under study depends on rounding of binary floats.
-/

namespace Difflib

variable {α : Type} [DecidableEq α]

/-- Indices of `x` in `b`, ascending.  Models `__chain_b`'s
`b2j[elt]` lists, which collect indices of `elt` in `b` in increasing
order. -/
def positions (b : List α) (x : α) : List Nat :=
  (List.range b.length).filter (fun j => b.get? j = some x)

/-- The `autojunk` heuristic of `SequenceMatcher.__chain_b` (with
`isjunk=None`, so the junk set proper is empty): when `len(b) >= 200`,
elements occurring more than `len(b) // 100 + 1` times are dropped from
`b2j`. -/
def isPopular (b : List α) (x : α) : Bool :=
  decide (200 ≤ b.length) && decide (b.length / 100 + 1 < (positions b x).length)

/-- `b2j.get(elt, [])` after `__chain_b` has removed popular elements. -/
def b2j (b : List α) (x : α) : List Nat :=
  if isPopular b x then [] else positions b x

/-- The column indices actually scanned for one row of the
`find_longest_match` main loop: the loop body does `continue` on `j < blo`
and `break` on `j >= bhi`; on the ascending `b2j` list this keeps the
entries `≥ blo` up to the first one `≥ bhi`. -/
def rowJs (js : List Nat) (blo bhi : Nat) : List Nat :=
  (js.filter (fun j => blo ≤ j)).takeWhile (fun j => j < bhi)

/-- The row scanned at `a[i]`; when `i` is out of range the row is empty
(the Python loop only runs for in-range `i`). -/
def rowOf (a b : List α) (blo bhi i : Nat) : List Nat :=
  match a.get? i with
  | some x => rowJs (b2j b x) blo bhi
  | none => []

/-- `newj2len[j] = j2len.get(j-1, 0) + 1`; in Python `j - 1` is `-1` when
`j = 0` and the `.get` then yields the default `0`. -/
def newLen (j2len : Nat → Nat) (j : Nat) : Nat :=
  (if j = 0 then 0 else j2len (j - 1)) + 1

/-- One candidate update of `besti, bestj, bestsize`:
`if k > bestsize: besti, bestj, bestsize = i-k+1, j-k+1, k`. -/
def rowStep (j2len : Nat → Nat) (i : Nat) (st : Nat × Nat × Nat) (j : Nat) :
    Nat × Nat × Nat :=
  let k := newLen j2len j
  if st.2.2 < k then (i + 1 - k, j + 1 - k, k) else st

/-- The inner `for j in b2j.get(a[i], nothing)` loop's effect on the best
triple (it reads the previous row's `j2len` throughout). -/
def rowBest (j2len : Nat → Nat) (i : Nat) (js : List Nat)
    (best : Nat × Nat × Nat) : Nat × Nat × Nat :=
  js.foldl (rowStep j2len i) best

/-- The `j2len` dictionary produced by a row, as a total function with
default `0`; entries exist exactly at the scanned column indices. -/
def newJ2len (j2len : Nat → Nat) (js : List Nat) : Nat → Nat :=
  fun j => if j ∈ js then newLen j2len j else 0

/-- One iteration of `for i in range(alo, ahi)`. -/
def mainStep (a b : List α) (blo bhi : Nat)
    (st : (Nat → Nat) × (Nat × Nat × Nat)) (i : Nat) :
    (Nat → Nat) × (Nat × Nat × Nat) :=
  let js := rowOf a b blo bhi i
  (newJ2len st.1 js, rowBest st.1 i js st.2)

/-- The dynamic-programming main loop of `find_longest_match`, returning
`(besti, bestj, bestsize)`; initial best is `(alo, blo, 0)`. -/
def mainLoop (a b : List α) (alo ahi blo bhi : Nat) : Nat × Nat × Nat :=
  ((List.range' alo (ahi - alo)).foldl (mainStep a b blo bhi)
    ((fun _ => 0), (alo, blo, 0))).2

/-- `a[i] == b[j]` with both indices in range. -/
def sameAt (a b : List α) (i j : Nat) : Bool :=
  match a.get? i, b.get? j with
  | some x, some y => decide (x = y)
  | _, _ => false

/-- First extension loop of `find_longest_match`:
`while besti > alo and bestj > blo and a[besti-1] == b[bestj-1]` (the
`not isbjunk(...)` conjunct is omitted because with `isjunk=None` the junk
set `bjunk` is empty and the test is always true).  Each iteration
decrements `besti`, so the loop is written as structural recursion on it;
at `besti = 0` the guard `besti > alo` is false and the loop exits. -/
def extendBack (a b : List α) (alo blo : Nat) :
    Nat → Nat → Nat → Nat × Nat × Nat
  | 0, bj, bs => (0, bj, bs)
  | bi + 1, bj, bs =>
    if alo < bi + 1 ∧ blo < bj ∧ sameAt a b bi (bj - 1) then
      extendBack a b alo blo bi (bj - 1) (bs + 1)
    else (bi + 1, bj, bs)

/-- Second extension loop:
`while besti+bestsize < ahi and bestj+bestsize < bhi and
a[besti+bestsize] == b[bestj+bestsize]` (again without the vacuous junk
test).  Each iteration increments `bestsize`, so the loop is written as
structural recursion on the remaining room `ahi - (besti + bestsize)`,
which the caller passes as the first argument: when it is `0` the guard
`besti+bestsize < ahi` is false and the loop exits, and each iteration
shrinks it by exactly one.  The third and fourth loops of the source
extend over junk elements only and never execute when `bjunk` is empty, so
they are omitted. -/
def extendFwd (a b : List α) (ahi bhi : Nat) :
    Nat → Nat → Nat → Nat → Nat × Nat × Nat
  | 0, bi, bj, bs => (bi, bj, bs)
  | room + 1, bi, bj, bs =>
    if bi + bs < ahi ∧ bj + bs < bhi ∧ sameAt a b (bi + bs) (bj + bs) then
      extendFwd a b ahi bhi room bi bj (bs + 1)
    else (bi, bj, bs)

/-- `find_longest_match(alo, ahi, blo, bhi)` for a matcher built with
`isjunk=None`. -/
def findLongestMatch (a b : List α) (alo ahi blo bhi : Nat) : Nat × Nat × Nat :=
  let m0 := mainLoop a b alo ahi blo bhi
  let m1 := extendBack a b alo blo m0.1 m0.2.1 m0.2.2
  extendFwd a b ahi bhi (ahi - (m1.1 + m1.2.2)) m1.1 m1.2.1 m1.2.2

/-- A triple `(i, j, k)` describes `k` pairwise-equal elements starting at
`i` in `a` and `j` in `b`, inside the window `[alo, ahi) × [blo, bhi)`. -/
def MatchIn (a b : List α) (alo ahi blo bhi : Nat) (m : Nat × Nat × Nat) : Prop :=
  alo ≤ m.1 ∧ blo ≤ m.2.1 ∧ m.1 + m.2.2 ≤ ahi ∧ m.2.1 + m.2.2 ≤ bhi ∧
    ∀ t, t < m.2.2 → sameAt a b (m.1 + t) (m.2.1 + t) = true

theorem sameAt_iff {a b : List α} {i j : Nat} :
    sameAt a b i j = true ↔ ∃ x, a.get? i = some x ∧ b.get? j = some x := by
  unfold sameAt
  cases ha : a.get? i <;> cases hb : b.get? j <;> simp
  exact eq_comm

/-- Introduction form of `MatchIn` with the triple split into components. -/
theorem matchIn_mk {a b : List α} {alo ahi blo bhi i j k : Nat}
    (h1 : alo ≤ i) (h2 : blo ≤ j) (h3 : i + k ≤ ahi) (h4 : j + k ≤ bhi)
    (h5 : ∀ t, t < k → sameAt a b (i + t) (j + t) = true) :
    MatchIn a b alo ahi blo bhi (i, j, k) :=
  ⟨h1, h2, h3, h4, h5⟩

/-- Elimination form of `MatchIn` with the triple split into components. -/
theorem matchIn_out {a b : List α} {alo ahi blo bhi i j k : Nat}
    (h : MatchIn a b alo ahi blo bhi (i, j, k)) :
    alo ≤ i ∧ blo ≤ j ∧ i + k ≤ ahi ∧ j + k ≤ bhi ∧
      ∀ t, t < k → sameAt a b (i + t) (j + t) = true :=
  h

theorem mem_positions {b : List α} {x : α} {j : Nat} :
    j ∈ positions b x ↔ b.get? j = some x := by
  unfold positions
  simp only [List.mem_filter, List.mem_range, decide_eq_true_eq]
  constructor
  · exact fun h => h.2
  · intro h
    refine ⟨?_, h⟩
    by_contra hlt
    rw [List.get?_eq_none.mpr (le_of_not_lt hlt)] at h
    exact Option.noConfusion h

theorem takeWhile_nil_of_forall {p : Nat → Bool} {l : List Nat}
    (h : ∀ x ∈ l, p x = false) : l.takeWhile p = [] := by
  cases l with
  | nil => rfl
  | cons y ys =>
    simp [List.takeWhile_cons, h y (List.mem_cons_self y ys)]

theorem mem_of_mem_takeWhile {p : Nat → Bool} {l : List Nat} {x : Nat}
    (h : x ∈ l.takeWhile p) : x ∈ l ∧ p x = true := by
  induction l with
  | nil => cases h
  | cons y ys ih =>
    rw [List.takeWhile_cons] at h
    by_cases hp : p y = true
    · rw [if_pos hp] at h
      rcases List.mem_cons.mp h with h | h
      · exact ⟨h ▸ List.mem_cons_self y ys, h ▸ hp⟩
      · exact ⟨List.mem_cons_of_mem y (ih h).1, (ih h).2⟩
    · rw [if_neg hp] at h
      cases h

theorem mem_of_mem_rowJs {js : List Nat} {blo bhi j : Nat}
    (h : j ∈ rowJs js blo bhi) : j ∈ js ∧ blo ≤ j ∧ j < bhi := by
  unfold rowJs at h
  have h2 := mem_of_mem_takeWhile h
  have h3 := List.mem_filter.mp h2.1
  refine ⟨h3.1, ?_, ?_⟩
  · simpa using h3.2
  · simpa using h2.2

theorem mem_of_mem_b2j {b : List α} {x : α} {j : Nat} (h : j ∈ b2j b x) :
    b.get? j = some x := by
  unfold b2j at h
  by_cases hp : isPopular b x
  · rw [if_pos hp] at h; cases h
  · rw [if_neg hp] at h; exact mem_positions.mp h

theorem rowJs_eq_nil_of_lt {js : List Nat} {blo bhi : Nat} (h : bhi < blo) :
    rowJs js blo bhi = [] := by
  unfold rowJs
  apply takeWhile_nil_of_forall
  intro x hx
  have := List.mem_filter.mp hx
  simp only [decide_eq_true_eq] at this
  simp only [decide_eq_false_iff_not, not_lt]
  omega

/-- A chain recorded by the dynamic programming: `k` consecutive rows ending
at row `r` matched with `k` consecutive columns ending at `j`, each column
coming from the scanned `b2j` row. -/
def EChain (a b : List α) (alo blo bhi r j k : Nat) : Prop :=
  1 ≤ k ∧ k ≤ r + 1 ∧ k ≤ j + 1 ∧ alo + k ≤ r + 1 ∧
    ∀ t, t < k → ∃ x, a.get? (r - t) = some x ∧ (j - t) ∈ rowJs (b2j b x) blo bhi

theorem EChain.matchIn {a b : List α} {alo blo bhi r j k : Nat} {ahi : Nat}
    (h : EChain a b alo blo bhi r j k) (hr : r < ahi) :
    MatchIn a b alo ahi blo bhi (r + 1 - k, j + 1 - k, k) := by
  obtain ⟨hk1, hkr, hkj, hka, hch⟩ := h
  have hblo : blo ≤ j + 1 - k := by
    obtain ⟨x, _, hmem⟩ := hch (k - 1) (by omega)
    have := (mem_of_mem_rowJs hmem).2.1
    omega
  have hbhi : j + 1 - k + k ≤ bhi := by
    obtain ⟨x, _, hmem⟩ := hch 0 (by omega)
    have := (mem_of_mem_rowJs hmem).2.2
    omega
  refine matchIn_mk (by omega) hblo (by omega) (by omega) ?_
  intro t ht
  obtain ⟨x, hax, hmem⟩ := hch (k - 1 - t) (by omega)
  have hbx := mem_of_mem_b2j (mem_of_mem_rowJs hmem).1
  rw [sameAt_iff]
  refine ⟨x, ?_, ?_⟩
  · have : r + 1 - k + t = r - (k - 1 - t) := by omega
    rw [this]; exact hax
  · have : j + 1 - k + t = j - (k - 1 - t) := by omega
    rw [this]; exact hbx

/-- Extend a chain ending at `(r, j)` by one matched element at `(i, j')`
in the next row. -/
theorem EChain.step {a b : List α} {alo blo bhi i j m : Nat} {x : α}
    (hprev : EChain a b alo blo bhi (i - 1) (j - 1) m) (hi : 1 ≤ i) (hj : 1 ≤ j)
    (hx : a.get? i = some x) (hmem : j ∈ rowJs (b2j b x) blo bhi) :
    EChain a b alo blo bhi i j (m + 1) := by
  obtain ⟨hm1, hmr, hmj, hma, hch⟩ := hprev
  refine ⟨by omega, by omega, by omega, by omega, ?_⟩
  intro t ht
  match t with
  | 0 => exact ⟨x, by simpa using hx, by simpa using hmem⟩
  | s + 1 =>
    obtain ⟨y, hay, hmy⟩ := hch s (by omega)
    refine ⟨y, ?_, ?_⟩
    · have : i - (s + 1) = i - 1 - s := by omega
      rw [this]; exact hay
    · have : j - (s + 1) = j - 1 - s := by omega
      rw [this]; exact hmy

theorem EChain.base {a b : List α} {alo blo bhi i j : Nat} {x : α}
    (halo : alo ≤ i) (hx : a.get? i = some x)
    (hmem : j ∈ rowJs (b2j b x) blo bhi) :
    EChain a b alo blo bhi i j 1 := by
  refine ⟨le_refl 1, by omega, by omega, by omega, ?_⟩
  intro t ht
  have : t = 0 := by omega
  subst this
  exact ⟨x, by simpa using hx, by simpa using hmem⟩

/-- Generic preservation of an invariant along `List.foldl`. -/
theorem foldl_pres {σ β : Type} (f : σ → β → σ) (P : σ → Prop) :
    ∀ (l : List β) (st : σ), (∀ s x, x ∈ l → P s → P (f s x)) → P st →
      P (l.foldl f st)
  | [], st, _, hst => hst
  | x :: xs, st, hstep, hst =>
    foldl_pres f P xs (f st x)
      (fun s y hy hs => hstep s y (List.mem_cons_of_mem x hy) hs)
      (hstep st x (List.mem_cons_self x xs) hst)

/-- Generic invariant for a fold over `List.range' i n` with an
index-dependent motive. -/
theorem range'_foldl_inv {σ : Type} (f : σ → Nat → σ) (motive : Nat → σ → Prop)
    (hi0 : Nat)
    (hstep : ∀ i st, i < hi0 → motive i st → motive (i + 1) (f st i)) :
    ∀ (n i : Nat) (st : σ), i + n ≤ hi0 → motive i st →
      motive (i + n) ((List.range' i n).foldl f st)
  | 0, i, st, _, hst => by simpa using hst
  | n + 1, i, st, hle, hst => by
    rw [List.range'_succ, List.foldl_cons]
    have := range'_foldl_inv f motive hi0 hstep n (i + 1) (f st i) (by omega)
      (hstep i st (by omega) hst)
    have harith : i + 1 + n = i + (n + 1) := by omega
    rwa [harith] at this

/-- The full invariant carried through the main loop for soundness:
row index bound, soundness of every `j2len` entry, and soundness of the
best triple. -/
def SInv (a b : List α) (alo blo bhi : Nat) (i : Nat)
    (st : (Nat → Nat) × (Nat × Nat × Nat)) : Prop :=
  alo ≤ i ∧
  (∀ j, st.1 j ≠ 0 → 1 ≤ i ∧ EChain a b alo blo bhi (i - 1) j (st.1 j)) ∧
  MatchIn a b alo i blo bhi st.2 ∧
  (st.2.2.2 = 0 → st.2 = (alo, blo, 0))

theorem newLen_chain {a b : List α} {alo blo bhi i : Nat} {x : α}
    {j2len : Nat → Nat}
    (hx : a.get? i = some x) (halo : alo ≤ i)
    (hsound : ∀ j, j2len j ≠ 0 → 1 ≤ i ∧ EChain a b alo blo bhi (i - 1) j (j2len j))
    {j : Nat} (hmem : j ∈ rowJs (b2j b x) blo bhi) :
    EChain a b alo blo bhi i j (newLen j2len j) := by
  unfold newLen
  by_cases hj0 : j = 0
  · subst hj0
    simpa using EChain.base halo hx hmem
  · rw [if_neg hj0]
    by_cases hz : j2len (j - 1) = 0
    · rw [hz]
      exact EChain.base halo hx hmem
    · obtain ⟨hi1, hch⟩ := hsound (j - 1) hz
      exact EChain.step hch hi1 (by omega) hx hmem

theorem sinv_step {a b : List α} {alo blo bhi : Nat} (ahi : Nat) :
    ∀ i st, i < ahi → SInv a b alo blo bhi i st →
      SInv a b alo blo bhi (i + 1) (mainStep a b blo bhi st i) := by
  intro i st hi hinv
  obtain ⟨halo, hsound, hbest, hzero⟩ := hinv
  unfold mainStep
  constructor
  · omega
  constructor
  · -- soundness of the new j2len entries
    intro j hne
    simp only [newJ2len] at hne ⊢
    by_cases hmem : j ∈ rowOf a b blo bhi i
    · rw [if_pos hmem] at hne ⊢
      refine ⟨by omega, ?_⟩
      simp only [Nat.add_sub_cancel]
      unfold rowOf at hmem
      cases hx : a.get? i with
      | none => rw [hx] at hmem; cases hmem
      | some x =>
        rw [hx] at hmem
        exact newLen_chain hx halo hsound hmem
    · rw [if_neg hmem] at hne
      exact absurd rfl hne
  · -- soundness of the new best triple
    have hmono : ∀ m, MatchIn a b alo i blo bhi m → MatchIn a b alo (i + 1) blo bhi m := by
      intro m hm
      obtain ⟨h1, h2, h3, h4, h5⟩ := hm
      exact ⟨h1, h2, by omega, h4, h5⟩
    refine foldl_pres _ (fun m => MatchIn a b alo (i + 1) blo bhi m ∧
        (m.2.2 = 0 → m = (alo, blo, 0))) _ _ ?_ ⟨hmono _ hbest, hzero⟩
    intro s j hj hs
    unfold rowStep
    by_cases hlt : s.2.2 < newLen st.1 j
    · rw [if_pos hlt]
      unfold rowOf at hj
      cases hx : a.get? i with
      | none => rw [hx] at hj; cases hj
      | some x =>
        rw [hx] at hj
        have hch := newLen_chain hx halo hsound hj
        refine ⟨?_, ?_⟩
        · simpa using hch.matchIn (by omega)
        · intro h0
          exfalso
          have := hch.1
          simp only at h0
          omega
    · rw [if_neg hlt]
      exact hs

theorem mainLoop_sound (a b : List α) (alo ahi blo bhi : Nat)
    (h1 : alo ≤ ahi) (h2 : blo ≤ bhi) :
    MatchIn a b alo ahi blo bhi (mainLoop a b alo ahi blo bhi) ∧
      ((mainLoop a b alo ahi blo bhi).2.2 = 0 →
        mainLoop a b alo ahi blo bhi = (alo, blo, 0)) := by
  unfold mainLoop
  have hinit : SInv a b alo blo bhi alo ((fun _ => 0), (alo, blo, 0)) := by
    refine ⟨le_refl _, ?_, ?_, fun _ => rfl⟩
    · intro j hj; exact absurd rfl hj
    · exact matchIn_mk (le_refl _) (le_refl _) (by omega) (by omega)
        (fun t ht => by omega)
  have := range'_foldl_inv (mainStep a b blo bhi)
    (SInv a b alo blo bhi) ahi (sinv_step ahi) (ahi - alo) alo
    ((fun _ => 0), (alo, blo, 0)) (by omega) hinit
  have harith : alo + (ahi - alo) = ahi := by omega
  rw [harith] at this
  exact ⟨this.2.2.1, this.2.2.2⟩

/-- The backward extension loop preserves soundness of the triple. -/
theorem extendBack_sound {a b : List α} {alo ahi blo bhi : Nat} :
    ∀ bi bj bs,
      MatchIn a b alo ahi blo bhi (bi, bj, bs) ∧
        (bs = 0 → (bi, bj, bs) = (alo, blo, 0)) →
      MatchIn a b alo ahi blo bhi (extendBack a b alo blo bi bj bs) ∧
        ((extendBack a b alo blo bi bj bs).2.2 = 0 →
          extendBack a b alo blo bi bj bs = (alo, blo, 0)) := by
  intro bi
  induction bi with
  | zero =>
    intro bj bs hm
    exact hm
  | succ n ih =>
    intro bj bs hm
    rw [extendBack]
    by_cases hc : alo < n + 1 ∧ blo < bj ∧ sameAt a b n (bj - 1) = true
    · rw [if_pos hc]
      apply ih
      obtain ⟨h1, h2, h3, h4, h5⟩ := matchIn_out hm.1
      refine ⟨matchIn_mk (by omega) (by omega) (by omega) (by omega) ?_,
        fun h0 => by simp at h0⟩
      intro t ht
      match t with
      | 0 =>
        simpa using hc.2.2
      | s + 1 =>
        have e1 : n + (s + 1) = n + 1 + s := by omega
        have e2 : bj - 1 + (s + 1) = bj + s := by omega
        rw [e1, e2]
        exact h5 s (by omega)
    · rw [if_neg hc]
      exact hm

/-- The forward extension loop preserves soundness of the triple. -/
theorem extendFwd_sound {a b : List α} {alo ahi blo bhi : Nat} :
    ∀ room bi bj bs,
      MatchIn a b alo ahi blo bhi (bi, bj, bs) ∧
        (bs = 0 → (bi, bj, bs) = (alo, blo, 0)) →
      MatchIn a b alo ahi blo bhi (extendFwd a b ahi bhi room bi bj bs) ∧
        ((extendFwd a b ahi bhi room bi bj bs).2.2 = 0 →
          extendFwd a b ahi bhi room bi bj bs = (alo, blo, 0)) := by
  intro room
  induction room with
  | zero =>
    intro bi bj bs hm
    exact hm
  | succ n ih =>
    intro bi bj bs hm
    rw [extendFwd]
    by_cases hc : bi + bs < ahi ∧ bj + bs < bhi ∧
        sameAt a b (bi + bs) (bj + bs) = true
    · rw [if_pos hc]
      apply ih
      obtain ⟨h1, h2, h3, h4, h5⟩ := matchIn_out hm.1
      refine ⟨matchIn_mk h1 h2 (by omega) (by omega) ?_,
        fun h0 => by simp at h0⟩
      intro t ht
      by_cases hts : t < bs
      · exact h5 t hts
      · have : t = bs := by omega
        subst this
        exact hc.2.2
    · rw [if_neg hc]
      exact hm

/-- Soundness of `find_longest_match` on a well-formed window: the returned
triple is a genuine common block inside the window, and a zero-size result
is exactly the initial `(alo, blo, 0)`. -/
theorem findLongestMatch_sound (a b : List α) (alo ahi blo bhi : Nat)
    (h1 : alo ≤ ahi) (h2 : blo ≤ bhi) :
    MatchIn a b alo ahi blo bhi (findLongestMatch a b alo ahi blo bhi) ∧
      ((findLongestMatch a b alo ahi blo bhi).2.2 = 0 →
        findLongestMatch a b alo ahi blo bhi = (alo, blo, 0)) := by
  have h0 := mainLoop_sound a b alo ahi blo bhi h1 h2
  have hb := extendBack_sound (mainLoop a b alo ahi blo bhi).1
    (mainLoop a b alo ahi blo bhi).2.1 (mainLoop a b alo ahi blo bhi).2.2
    ⟨h0.1, h0.2⟩
  exact extendFwd_sound _ _ _ _ ⟨hb.1, hb.2⟩

theorem mainLoop_degenerate (a b : List α) (alo ahi blo bhi : Nat)
    (h : ahi ≤ alo ∨ bhi < blo) :
    mainLoop a b alo ahi blo bhi = (alo, blo, 0) := by
  rcases h with h | h
  · unfold mainLoop
    have : ahi - alo = 0 := by omega
    rw [this]
    rfl
  · unfold mainLoop
    have hbest : ∀ (n i : Nat) st, st.2 = (alo, blo, 0) →
        ((List.range' i n).foldl (mainStep a b blo bhi) st).2 = (alo, blo, 0) := by
      intro n
      induction n with
      | zero => intro i st hst; simpa using hst
      | succ n ih =>
        intro i st hst
        rw [List.range'_succ, List.foldl_cons]
        apply ih
        unfold mainStep rowBest
        have hrow : rowOf a b blo bhi i = [] := by
          unfold rowOf
          cases a.get? i with
          | none => rfl
          | some x => exact rowJs_eq_nil_of_lt h
        rw [hrow]
        simpa using hst
    exact hbest _ _ _ rfl

theorem extendBack_start (a b : List α) (alo blo : Nat) :
    extendBack a b alo blo alo blo 0 = (alo, blo, 0) := by
  cases alo with
  | zero => rfl
  | succ n =>
    rw [extendBack, if_neg (by omega)]

theorem extendFwd_stuck (a b : List α) (ahi bhi : Nat) (room bi bj bs : Nat)
    (h : ¬(bi + bs < ahi ∧ bj + bs < bhi ∧ sameAt a b (bi + bs) (bj + bs) = true)) :
    extendFwd a b ahi bhi room bi bj bs = (bi, bj, bs) := by
  cases room with
  | zero => rfl
  | succ n => rw [extendFwd, if_neg h]

/-- Unconditionally, a nonzero result of `find_longest_match` lies inside the
window. -/
theorem findLongestMatch_bounds (a b : List α) (alo ahi blo bhi : Nat)
    (hk : (findLongestMatch a b alo ahi blo bhi).2.2 ≠ 0) :
    alo ≤ (findLongestMatch a b alo ahi blo bhi).1 ∧
      (findLongestMatch a b alo ahi blo bhi).1 +
        (findLongestMatch a b alo ahi blo bhi).2.2 ≤ ahi ∧
      blo ≤ (findLongestMatch a b alo ahi blo bhi).2.1 ∧
      (findLongestMatch a b alo ahi blo bhi).2.1 +
        (findLongestMatch a b alo ahi blo bhi).2.2 ≤ bhi := by
  by_cases h1 : alo ≤ ahi
  · by_cases h2 : blo ≤ bhi
    · obtain ⟨hm, _⟩ := findLongestMatch_sound a b alo ahi blo bhi h1 h2
      exact ⟨hm.1, hm.2.2.1, hm.2.1, hm.2.2.2.1⟩
    · exfalso
      apply hk
      unfold findLongestMatch
      rw [mainLoop_degenerate a b alo ahi blo bhi (Or.inr (by omega))]
      show (extendFwd a b ahi bhi _
        (extendBack a b alo blo alo blo 0).1
        (extendBack a b alo blo alo blo 0).2.1
        (extendBack a b alo blo alo blo 0).2.2).2.2 = 0
      rw [extendBack_start]
      rw [extendFwd_stuck a b ahi bhi _ alo blo 0 (by omega)]
  · exfalso
    apply hk
    unfold findLongestMatch
    rw [mainLoop_degenerate a b alo ahi blo bhi (Or.inl (by omega))]
    show (extendFwd a b ahi bhi _
      (extendBack a b alo blo alo blo 0).1
      (extendBack a b alo blo alo blo 0).2.1
      (extendBack a b alo blo alo blo 0).2.2).2.2 = 0
    rw [extendBack_start]
    rw [extendFwd_stuck a b ahi bhi _ alo blo 0 (by omega)]

/-- The recursion of `get_matching_blocks`, emitted in order.  The source
uses an explicit stack and then sorts the collected blocks; because every
block found in the left sub-window starts strictly before the found block
and every block of the right sub-window starts strictly after, the
in-order recursion below produces exactly that sorted list.  The source
recursion strictly shrinks the `a`-window, so it is written as structural
recursion on the window width `ahi - alo`, passed as the first `Nat`
argument; a window of width `0` never carries a nonzero match, so the
`fuel = 0` branch returning `[]` agrees with the source. -/
def matchingBlocksRec (a b : List α) :
    Nat → Nat → Nat → Nat → Nat → List (Nat × Nat × Nat)
  | 0, _, _, _, _ => []
  | fuel + 1, alo, ahi, blo, bhi =>
    if (findLongestMatch a b alo ahi blo bhi).2.2 = 0 then []
    else
      (if alo < (findLongestMatch a b alo ahi blo bhi).1 ∧
          blo < (findLongestMatch a b alo ahi blo bhi).2.1 then
        matchingBlocksRec a b fuel alo (findLongestMatch a b alo ahi blo bhi).1
          blo (findLongestMatch a b alo ahi blo bhi).2.1
      else []) ++
      findLongestMatch a b alo ahi blo bhi ::
        (if (findLongestMatch a b alo ahi blo bhi).1 +
              (findLongestMatch a b alo ahi blo bhi).2.2 < ahi ∧
            (findLongestMatch a b alo ahi blo bhi).2.1 +
              (findLongestMatch a b alo ahi blo bhi).2.2 < bhi then
          matchingBlocksRec a b fuel
            ((findLongestMatch a b alo ahi blo bhi).1 +
              (findLongestMatch a b alo ahi blo bhi).2.2) ahi
            ((findLongestMatch a b alo ahi blo bhi).2.1 +
              (findLongestMatch a b alo ahi blo bhi).2.2) bhi
        else [])

/-- One step of the adjacent-block merging loop of `get_matching_blocks`:
state is the pending block `(i1, j1, k1)` and the accumulated
`non_adjacent` list. -/
def collapseStep (st : (Nat × Nat × Nat) × List (Nat × Nat × Nat))
    (m : Nat × Nat × Nat) : (Nat × Nat × Nat) × List (Nat × Nat × Nat) :=
  if st.1.1 + st.1.2.2 = m.1 ∧ st.1.2.1 + st.1.2.2 = m.2.1 then
    ((st.1.1, st.1.2.1, st.1.2.2 + m.2.2), st.2)
  else if st.1.2.2 ≠ 0 then (m, st.2 ++ [st.1])
  else (m, st.2)

/-- `get_matching_blocks`: recursion, merge of adjacent blocks starting from
the pending `(0, 0, 0)`, final flush of the pending block if nonzero, and
the `(len(a), len(b), 0)` sentinel. -/
def getMatchingBlocks (a b : List α) : List (Nat × Nat × Nat) :=
  let raw := matchingBlocksRec a b a.length 0 a.length 0 b.length
  let p := raw.foldl collapseStep ((0, 0, 0), [])
  (p.2 ++ if p.1.2.2 ≠ 0 then [p.1] else []) ++ [(a.length, b.length, 0)]

/-- Total size of the matching blocks (`sum(triple[-1] ...)` in
`ratio`). -/
def totalMatched (a b : List α) : Nat :=
  ((getMatchingBlocks a b).map (fun m => m.2.2)).sum

/-- `difflib._calculate_ratio`, with the float result modelled exactly in
`ℚ`: `2.0 * matches / length` when `length` is nonzero, else `1.0`. -/
def calculateRatio (m length : Nat) : ℚ :=
  if length ≠ 0 then 2 * (m : ℚ) / (length : ℚ) else 1

/-- `SequenceMatcher.ratio()`. -/
def ratio (a b : List α) : ℚ :=
  calculateRatio (totalMatched a b) (a.length + b.length)

/-- An opcode `(tag, i1, i2, j1, j2)` of `get_opcodes`. -/
abbrev Opcode : Type := String × Nat × Nat × Nat × Nat

/-- The loop body of `get_opcodes`, written as in-order recursion over the
matching blocks with the running `(i, j)` cursor (the source accumulates
into `answer`; appending to an accumulator in a loop emits the same list as
this recursion). -/
def opcodesAux (a b : List α) : Nat → Nat → List (Nat × Nat × Nat) → List Opcode
  | _, _, [] => []
  | i, j, (ai, bj, size) :: rest =>
    (if i < ai ∧ j < bj then [("replace", i, ai, j, bj)]
      else if i < ai then [("delete", i, ai, j, bj)]
      else if j < bj then [("insert", i, ai, j, bj)]
      else []) ++
    (if size ≠ 0 then [("equal", ai, ai + size, bj, bj + size)] else []) ++
    opcodesAux a b (ai + size) (bj + size) rest

/-- `SequenceMatcher.get_opcodes()`. -/
def getOpcodes (a b : List α) : List Opcode :=
  opcodesAux a b 0 0 (getMatchingBlocks a b)

/-- `l[i:j]` as in Python slicing with `0 ≤ i ≤ j`. -/
def sliceList {β : Type} (l : List β) (i j : Nat) : List β :=
  (l.drop i).take (j - i)

/-- Ordered, pairwise-disjoint blocks inside the window, each a genuine
nonempty match. -/
def BlocksOK (a b : List α) : Nat → Nat → Nat → Nat → List (Nat × Nat × Nat) → Prop
  | _, _, _, _, [] => True
  | lo, lj, hi, hj, (i, j, k) :: rest =>
    lo ≤ i ∧ lj ≤ j ∧ i + k ≤ hi ∧ j + k ≤ hj ∧ 1 ≤ k ∧
      (∀ t, t < k → sameAt a b (i + t) (j + t) = true) ∧
      BlocksOK a b (i + k) (j + k) hi hj rest

/-- Ordered, pairwise-disjoint blocks inside the window (no matching or
nonemptiness requirement; satisfied in particular by the sentinel). -/
def MonoB : Nat → Nat → Nat → Nat → List (Nat × Nat × Nat) → Prop
  | _, _, _, _, [] => True
  | lo, lj, hi, hj, (i, j, k) :: rest =>
    lo ≤ i ∧ lj ≤ j ∧ i + k ≤ hi ∧ j + k ≤ hj ∧ MonoB (i + k) (j + k) hi hj rest

theorem BlocksOK.monoB {a b : List α} :
    ∀ {l : List (Nat × Nat × Nat)} {lo lj hi hj : Nat},
      BlocksOK a b lo lj hi hj l → MonoB lo lj hi hj l
  | [], _, _, _, _, _ => trivial
  | (i, j, k) :: rest, lo, lj, hi, hj, h =>
    ⟨h.1, h.2.1, h.2.2.1, h.2.2.2.1, BlocksOK.monoB h.2.2.2.2.2.2⟩

theorem blocksOK_mono_lower {a b : List α} :
    ∀ {l : List (Nat × Nat × Nat)} {lo lj lo' lj' hi hj : Nat},
      BlocksOK a b lo lj hi hj l → lo' ≤ lo → lj' ≤ lj →
        BlocksOK a b lo' lj' hi hj l
  | [], _, _, _, _, _, _, _, _, _ => trivial
  | (i, j, k) :: rest, lo, lj, lo', lj', hi, hj, h, h1, h2 =>
    ⟨le_trans h1 h.1, le_trans h2 h.2.1, h.2.2.1, h.2.2.2.1, h.2.2.2.2.1,
      h.2.2.2.2.2.1, h.2.2.2.2.2.2⟩

theorem blocksOK_append {a b : List α} :
    ∀ {l1 l2 : List (Nat × Nat × Nat)} {lo lj mid mj hi hj : Nat},
      BlocksOK a b lo lj mid mj l1 → BlocksOK a b mid mj hi hj l2 →
      lo ≤ mid → lj ≤ mj → mid ≤ hi → mj ≤ hj →
        BlocksOK a b lo lj hi hj (l1 ++ l2) := by
  intro l1
  induction l1 with
  | nil =>
    intro l2 lo lj mid mj hi hj _ h2 hlo hlj _ _
    exact blocksOK_mono_lower h2 hlo hlj
  | cons hd tl ih =>
    intro l2 lo lj mid mj hi hj h1 h2 hlo hlj hhi hhj
    obtain ⟨i, j, k⟩ := hd
    obtain ⟨g1, g2, g3, g4, g5, g6, g7⟩ := h1
    exact ⟨g1, g2, by omega, by omega, g5, g6, ih g7 h2 g3 g4 hhi hhj⟩

/-- The block recursion emits an ordered list of genuine matching blocks
covering disjoint parts of the window (for any fuel). -/
theorem matchingBlocksRec_sound (a b : List α) :
    ∀ fuel alo ahi blo bhi, alo ≤ ahi → blo ≤ bhi →
      BlocksOK a b alo blo ahi bhi (matchingBlocksRec a b fuel alo ahi blo bhi) := by
  intro fuel
  induction fuel with
  | zero =>
    intro alo ahi blo bhi h1 h2
    rw [matchingBlocksRec]
    trivial
  | succ n ihn =>
    intro alo ahi blo bhi h1 h2
    rw [matchingBlocksRec]
    by_cases hk : (findLongestMatch a b alo ahi blo bhi).2.2 = 0
    · rw [if_pos hk]
      trivial
    · rw [if_neg hk]
      obtain ⟨hm, _⟩ := findLongestMatch_sound a b alo ahi blo bhi h1 h2
      obtain ⟨m1, m2, m3, m4, m5⟩ := hm
      have hrest : BlocksOK a b ((findLongestMatch a b alo ahi blo bhi).1 +
          (findLongestMatch a b alo ahi blo bhi).2.2)
          ((findLongestMatch a b alo ahi blo bhi).2.1 +
            (findLongestMatch a b alo ahi blo bhi).2.2) ahi bhi
          (if (findLongestMatch a b alo ahi blo bhi).1 +
                (findLongestMatch a b alo ahi blo bhi).2.2 < ahi ∧
              (findLongestMatch a b alo ahi blo bhi).2.1 +
                (findLongestMatch a b alo ahi blo bhi).2.2 < bhi then
            matchingBlocksRec a b n
              ((findLongestMatch a b alo ahi blo bhi).1 +
                (findLongestMatch a b alo ahi blo bhi).2.2) ahi
              ((findLongestMatch a b alo ahi blo bhi).2.1 +
                (findLongestMatch a b alo ahi blo bhi).2.2) bhi
          else []) := by
        by_cases hc : (findLongestMatch a b alo ahi blo bhi).1 +
              (findLongestMatch a b alo ahi blo bhi).2.2 < ahi ∧
            (findLongestMatch a b alo ahi blo bhi).2.1 +
              (findLongestMatch a b alo ahi blo bhi).2.2 < bhi
        · rw [if_pos hc]
          exact ihn _ _ _ _ (by omega) (by omega)
        · rw [if_neg hc]
          trivial
      have hcons : BlocksOK a b (findLongestMatch a b alo ahi blo bhi).1
          (findLongestMatch a b alo ahi blo bhi).2.1 ahi bhi
          (findLongestMatch a b alo ahi blo bhi ::
            (if (findLongestMatch a b alo ahi blo bhi).1 +
                  (findLongestMatch a b alo ahi blo bhi).2.2 < ahi ∧
                (findLongestMatch a b alo ahi blo bhi).2.1 +
                  (findLongestMatch a b alo ahi blo bhi).2.2 < bhi then
              matchingBlocksRec a b n
                ((findLongestMatch a b alo ahi blo bhi).1 +
                  (findLongestMatch a b alo ahi blo bhi).2.2) ahi
                ((findLongestMatch a b alo ahi blo bhi).2.1 +
                  (findLongestMatch a b alo ahi blo bhi).2.2) bhi
            else [])) := by
        have heq : findLongestMatch a b alo ahi blo bhi =
            ((findLongestMatch a b alo ahi blo bhi).1,
              (findLongestMatch a b alo ahi blo bhi).2.1,
              (findLongestMatch a b alo ahi blo bhi).2.2) := rfl
        rw [heq]
        exact ⟨le_refl _, le_refl _, m3, m4, by omega, m5, hrest⟩
      by_cases hc1 : alo < (findLongestMatch a b alo ahi blo bhi).1 ∧
          blo < (findLongestMatch a b alo ahi blo bhi).2.1
      · rw [if_pos hc1]
        refine blocksOK_append ?_ hcons (by omega) (by omega) (by omega) (by omega)
        exact ihn _ _ _ _ (by omega) (by omega)
      · rw [if_neg hc1]
        exact blocksOK_mono_lower hcons m1 m2

/-- Total size carried by a list of blocks. -/
def sumK (l : List (Nat × Nat × Nat)) : Nat :=
  (l.map (fun m => m.2.2)).sum

theorem blocksOK_sum_le {a b : List α} :
    ∀ {l : List (Nat × Nat × Nat)} {lo lj hi hj : Nat},
      BlocksOK a b lo lj hi hj l → sumK l ≤ hi - lo ∧ sumK l ≤ hj - lj := by
  intro l
  induction l with
  | nil => intro lo lj hi hj _; simp [sumK]
  | cons hd tl ih =>
    intro lo lj hi hj h
    obtain ⟨i, j, k⟩ := hd
    obtain ⟨g1, g2, g3, g4, _, _, g7⟩ := h
    have := ih g7
    simp only [sumK, List.map_cons, List.sum_cons] at this ⊢
    omega

/-- Invariant of the adjacent-block merging loop: the pending block is
either the initial zero triple with an empty accumulator, or a genuine
block such that the accumulator extends to a valid block list in front of
anything that starts where the pending block starts. -/
def CInv (a b : List α) (hi hj : Nat) (cur : Nat × Nat × Nat)
    (acc : List (Nat × Nat × Nat)) : Prop :=
  (cur = (0, 0, 0) ∧ acc = []) ∨
  (1 ≤ cur.2.2 ∧ cur.1 + cur.2.2 ≤ hi ∧ cur.2.1 + cur.2.2 ≤ hj ∧
    (∀ t, t < cur.2.2 → sameAt a b (cur.1 + t) (cur.2.1 + t) = true) ∧
    (∀ rest, BlocksOK a b cur.1 cur.2.1 hi hj rest →
      BlocksOK a b 0 0 hi hj (acc ++ rest)))

theorem cinv_right {a b : List α} {hi hj i j k : Nat}
    {acc : List (Nat × Nat × Nat)}
    (h1 : 1 ≤ k) (h2 : i + k ≤ hi) (h3 : j + k ≤ hj)
    (h4 : ∀ t, t < k → sameAt a b (i + t) (j + t) = true)
    (h5 : ∀ rest, BlocksOK a b i j hi hj rest →
      BlocksOK a b 0 0 hi hj (acc ++ rest)) :
    CInv a b hi hj (i, j, k) acc :=
  Or.inr ⟨h1, h2, h3, h4, h5⟩

theorem collapse_go {a b : List α} {hi hj : Nat} :
    ∀ (raw : List (Nat × Nat × Nat)) (cur : Nat × Nat × Nat)
      (acc : List (Nat × Nat × Nat)),
      BlocksOK a b (cur.1 + cur.2.2) (cur.2.1 + cur.2.2) hi hj raw →
      CInv a b hi hj cur acc →
      CInv a b hi hj (raw.foldl collapseStep (cur, acc)).1
          (raw.foldl collapseStep (cur, acc)).2 ∧
        sumK (raw.foldl collapseStep (cur, acc)).2 +
            (raw.foldl collapseStep (cur, acc)).1.2.2 =
          sumK acc + cur.2.2 + sumK raw := by
  intro raw
  induction raw with
  | nil =>
    intro cur acc _ hinv
    refine ⟨hinv, ?_⟩
    simp [sumK]
  | cons m rest ih =>
    intro cur acc hraw hinv
    obtain ⟨i2, j2, k2⟩ := m
    obtain ⟨r1, r2, r3, r4, r5, r6, r7⟩ := hraw
    rw [List.foldl_cons]
    by_cases hmerge : cur.1 + cur.2.2 = i2 ∧ cur.2.1 + cur.2.2 = j2
    · -- adjacent: merge into the pending block
      have hstep : collapseStep (cur, acc) (i2, j2, k2) =
          ((cur.1, cur.2.1, cur.2.2 + k2), acc) := by
        unfold collapseStep
        rw [if_pos hmerge]
      rw [hstep]
      have hnext : BlocksOK a b (cur.1 + (cur.2.2 + k2))
          (cur.2.1 + (cur.2.2 + k2)) hi hj rest := by
        have e1 : cur.1 + (cur.2.2 + k2) = i2 + k2 := by omega
        have e2 : cur.2.1 + (cur.2.2 + k2) = j2 + k2 := by omega
        rw [e1, e2]; exact r7
      have hinv' : CInv a b hi hj (cur.1, cur.2.1, cur.2.2 + k2) acc := by
        rcases hinv with ⟨hc, ha⟩ | ⟨h1, h2, h3, h4, h5⟩
        · -- pending was the initial zero triple; the merged block starts at 0
          have hc1 : cur.1 = 0 := by rw [hc]
          have hc2 : cur.2.1 = 0 := by rw [hc]
          have hc3 : cur.2.2 = 0 := by rw [hc]
          refine cinv_right (by omega) (by omega) (by omega) ?_ ?_
          · intro t ht
            have e3 : cur.1 + t = i2 + t := by omega
            have e4 : cur.2.1 + t = j2 + t := by omega
            rw [e3, e4]
            exact r6 t (by omega)
          · intro l hl
            rw [ha]
            simp only [List.nil_append]
            exact blocksOK_mono_lower hl (by omega) (by omega)
        · refine cinv_right (by omega) (by omega) (by omega) ?_ ?_
          · intro t ht
            by_cases hts : t < cur.2.2
            · exact h4 t hts
            · have e3 : cur.1 + t = i2 + (t - cur.2.2) := by omega
              have e4 : cur.2.1 + t = j2 + (t - cur.2.2) := by omega
              rw [e3, e4]
              exact r6 (t - cur.2.2) (by omega)
          · exact h5
      have hrec := ih (cur.1, cur.2.1, cur.2.2 + k2) acc hnext hinv'
      refine ⟨hrec.1, ?_⟩
      have hs := hrec.2
      dsimp only at hs
      simp only [sumK, List.map_cons, List.sum_cons] at hs ⊢
      omega
    · -- not adjacent: flush the pending block (if nonzero) and restart
      rcases hinv with ⟨hc, ha⟩ | ⟨h1, h2, h3, h4, h5⟩
      · have hc3 : cur.2.2 = 0 := by rw [hc]
        have hstep : collapseStep (cur, acc) (i2, j2, k2) =
            ((i2, j2, k2), acc) := by
          unfold collapseStep
          rw [if_neg hmerge, if_neg (by simpa using hc3)]
        rw [hstep]
        have hinv' : CInv a b hi hj (i2, j2, k2) acc := by
          refine cinv_right r5 r3 r4 r6 ?_
          intro l hl
          rw [ha]
          simp only [List.nil_append]
          exact blocksOK_mono_lower hl (by omega) (by omega)
        have hrec := ih (i2, j2, k2) acc r7 hinv'
        refine ⟨hrec.1, ?_⟩
        have hs := hrec.2
        dsimp only at hs
        simp only [sumK, List.map_cons, List.sum_cons] at hs ⊢
        omega
      · have hstep : collapseStep (cur, acc) (i2, j2, k2) =
            ((i2, j2, k2), acc ++ [cur]) := by
          unfold collapseStep
          rw [if_neg hmerge, if_pos (by simp only [ne_eq]; omega)]
        rw [hstep]
        have hinv' : CInv a b hi hj (i2, j2, k2) (acc ++ [cur]) := by
          refine cinv_right r5 r3 r4 r6 ?_
          intro l hl
          have hcl : BlocksOK a b cur.1 cur.2.1 hi hj (cur :: l) := by
            have hcur : cur = (cur.1, cur.2.1, cur.2.2) := rfl
            rw [hcur]
            exact ⟨le_refl _, le_refl _, h2, h3, h1, h4,
              blocksOK_mono_lower hl r1 r2⟩
          have := h5 (cur :: l) hcl
          simpa using this
        have hrec := ih (i2, j2, k2) (acc ++ [cur]) r7 hinv'
        refine ⟨hrec.1, ?_⟩
        have hs := hrec.2
        dsimp only at hs
        simp only [sumK, List.map_cons, List.sum_cons, List.map_append,
          List.sum_append, List.map_nil, List.sum_nil] at hs ⊢
        omega

/-- Structure of `get_matching_blocks`: a valid ordered block list followed
by the `(len(a), len(b), 0)` sentinel, whose total size equals the total of
the raw recursion. -/
theorem getMatchingBlocks_struct (a b : List α) :
    ∃ l, getMatchingBlocks a b = l ++ [(a.length, b.length, 0)] ∧
      BlocksOK a b 0 0 a.length b.length l ∧
      sumK l = sumK (matchingBlocksRec a b a.length 0 a.length 0 b.length) := by
  unfold getMatchingBlocks
  have hraw : BlocksOK a b 0 0 a.length b.length
      (matchingBlocksRec a b a.length 0 a.length 0 b.length) :=
    matchingBlocksRec_sound a b a.length 0 a.length 0 b.length (by omega) (by omega)
  have hinv0 : CInv a b a.length b.length (0, 0, 0) [] := Or.inl ⟨rfl, rfl⟩
  obtain ⟨hinv, hsum⟩ := collapse_go
    (matchingBlocksRec a b a.length 0 a.length 0 b.length) (0, 0, 0) [] hraw hinv0
  dsimp only at hinv hsum
  refine ⟨_, rfl, ?_, ?_⟩
  · rcases hinv with ⟨hc, ha⟩ | ⟨h1, h2, h3, h4, h5⟩
    · rw [hc, ha]
      simp only [List.nil_append]
      rw [if_neg (by simp)]
      trivial
    · by_cases hz : ((matchingBlocksRec a b a.length 0 a.length 0 b.length).foldl
          collapseStep ((0, 0, 0), [])).1.2.2 ≠ 0
      · rw [if_pos hz]
        apply h5
        have hcur : ((matchingBlocksRec a b a.length 0 a.length 0 b.length).foldl
            collapseStep ((0, 0, 0), [])).1 =
            (((matchingBlocksRec a b a.length 0 a.length 0 b.length).foldl
              collapseStep ((0, 0, 0), [])).1.1,
              ((matchingBlocksRec a b a.length 0 a.length 0 b.length).foldl
                collapseStep ((0, 0, 0), [])).1.2.1,
              ((matchingBlocksRec a b a.length 0 a.length 0 b.length).foldl
                collapseStep ((0, 0, 0), [])).1.2.2) := rfl
        rw [hcur]
        exact ⟨le_refl _, le_refl _, h2, h3, h1, h4, trivial⟩
      · omega
  · rcases hinv with ⟨hc, ha⟩ | ⟨h1, _, _, _, _⟩
    · rw [hc, ha] at hsum ⊢
      simp only [List.nil_append]
      rw [if_neg (by simp)]
      simp only [sumK, List.map_nil, List.sum_nil] at hsum ⊢
      omega
    · rw [if_pos (by omega)]
      simp only [sumK, List.map_append, List.sum_append, List.map_cons,
        List.sum_cons, List.map_nil, List.sum_nil] at hsum ⊢
      omega

theorem monoB_mono_lower :
    ∀ {l : List (Nat × Nat × Nat)} {lo lj lo' lj' hi hj : Nat},
      MonoB lo lj hi hj l → lo' ≤ lo → lj' ≤ lj → MonoB lo' lj' hi hj l
  | [], _, _, _, _, _, _, _, _, _ => trivial
  | (i, j, k) :: _, _, _, _, _, _, _, h, h1, h2 =>
    ⟨le_trans h1 h.1, le_trans h2 h.2.1, h.2.2.1, h.2.2.2.1, h.2.2.2.2⟩

theorem monoB_append_single :
    ∀ {l : List (Nat × Nat × Nat)} {lo lj hi hj : Nat},
      MonoB lo lj hi hj l → lo ≤ hi → lj ≤ hj →
        MonoB lo lj hi hj (l ++ [(hi, hj, 0)]) := by
  intro l
  induction l with
  | nil =>
    intro lo lj hi hj _ h1 h2
    exact ⟨h1, h2, by omega, by omega, trivial⟩
  | cons hd tl ih =>
    intro lo lj hi hj h h1 h2
    obtain ⟨i, j, k⟩ := hd
    obtain ⟨g1, g2, g3, g4, g5⟩ := h
    exact ⟨g1, g2, g3, g4, ih g5 (by omega) (by omega)⟩

/-- Cursor position in `a` after consuming a block list (`i = ai + size`
updates of the `get_opcodes` loop). -/
def endA : Nat → List (Nat × Nat × Nat) → Nat
  | i, [] => i
  | _, (ai, _, k) :: rest => endA (ai + k) rest

/-- Cursor position in `b` after consuming a block list. -/
def endB : Nat → List (Nat × Nat × Nat) → Nat
  | j, [] => j
  | _, (_, bj, k) :: rest => endB (bj + k) rest

theorem endA_append : ∀ (l1 l2 : List (Nat × Nat × Nat)) (i : Nat),
    endA i (l1 ++ l2) = endA (endA i l1) l2
  | [], _, _ => rfl
  | (ai, bj, k) :: rest, l2, i => by
    simp only [List.cons_append, endA]
    exact endA_append rest l2 (ai + k)

theorem endB_append : ∀ (l1 l2 : List (Nat × Nat × Nat)) (j : Nat),
    endB j (l1 ++ l2) = endB (endB j l1) l2
  | [], _, _ => rfl
  | (ai, bj, k) :: rest, l2, j => by
    simp only [List.cons_append, endB]
    exact endB_append rest l2 (bj + k)

theorem endA_ge {hi hj : Nat} : ∀ {l : List (Nat × Nat × Nat)} {s t : Nat},
    MonoB s t hi hj l → s ≤ endA s l := by
  intro l
  induction l with
  | nil => intro s t _; exact le_refl s
  | cons hd tl ih =>
    intro s t h
    obtain ⟨ai, bj, k⟩ := hd
    obtain ⟨g1, _, _, _, g5⟩ := h
    have := ih g5
    simp only [endA]
    omega

theorem endB_ge {hi hj : Nat} : ∀ {l : List (Nat × Nat × Nat)} {s t : Nat},
    MonoB s t hi hj l → t ≤ endB t l := by
  intro l
  induction l with
  | nil => intro s t _; exact le_refl t
  | cons hd tl ih =>
    intro s t h
    obtain ⟨ai, bj, k⟩ := hd
    obtain ⟨_, g2, _, _, g5⟩ := h
    have := ih g5
    simp only [endB]
    omega

/-- Concatenation of the left (`a`-side) slices of a list of opcodes. -/
def opSlicesL (a : List α) (ops : List Opcode) : List α :=
  ops.foldr (fun op acc => sliceList a op.2.1 op.2.2.1 ++ acc) []

/-- Concatenation of the right (`b`-side) slices of a list of opcodes. -/
def opSlicesR (b : List α) (ops : List Opcode) : List α :=
  ops.foldr (fun op acc => sliceList b op.2.2.2.1 op.2.2.2.2 ++ acc) []

theorem opSlicesL_append (a : List α) :
    ∀ l1 l2, opSlicesL a (l1 ++ l2) = opSlicesL a l1 ++ opSlicesL a l2 := by
  intro l1
  induction l1 with
  | nil => intro l2; simp [opSlicesL]
  | cons hd tl ih =>
    intro l2
    simp only [opSlicesL, List.cons_append, List.foldr_cons] at ih ⊢
    rw [ih, List.append_assoc]

theorem opSlicesR_append (b : List α) :
    ∀ l1 l2, opSlicesR b (l1 ++ l2) = opSlicesR b l1 ++ opSlicesR b l2 := by
  intro l1
  induction l1 with
  | nil => intro l2; simp [opSlicesR]
  | cons hd tl ih =>
    intro l2
    simp only [opSlicesR, List.cons_append, List.foldr_cons] at ih ⊢
    rw [ih, List.append_assoc]

theorem sliceList_self {β : Type} (l : List β) (i : Nat) :
    sliceList l i i = [] := by
  simp [sliceList]

theorem sliceList_append_slice {β : Type} (l : List β) {i m e : Nat}
    (h1 : i ≤ m) (h2 : m ≤ e) :
    sliceList l i m ++ sliceList l m e = sliceList l i e := by
  unfold sliceList
  have e1 : e - i = (m - i) + (e - m) := by omega
  rw [e1, List.take_add]
  congr 1
  rw [List.drop_drop]
  congr 2
  omega

/-- The opcode slices reconstruct the slice of the window consumed by the
blocks: each gap opcode covers `[i, ai)`, each equal opcode covers
`[ai, ai+size)`, contiguously. -/
theorem opcodesAux_slices (a b : List α) (hi hj : Nat) :
    ∀ (blocks : List (Nat × Nat × Nat)) (i j : Nat), MonoB i j hi hj blocks →
      opSlicesL a (opcodesAux a b i j blocks) = sliceList a i (endA i blocks) ∧
      opSlicesR b (opcodesAux a b i j blocks) = sliceList b j (endB j blocks) := by
  intro blocks
  induction blocks with
  | nil =>
    intro i j _
    constructor
    · simp [opcodesAux, opSlicesL, endA, sliceList_self]
    · simp [opcodesAux, opSlicesR, endB, sliceList_self]
  | cons hd rest ih =>
    intro i j h
    obtain ⟨ai, bj, k⟩ := hd
    obtain ⟨g1, g2, g3, g4, g5⟩ := h
    obtain ⟨ihl, ihr⟩ := ih (ai + k) (bj + k) g5
    have hendA : ai + k ≤ endA (ai + k) rest := endA_ge g5
    have hendB : bj + k ≤ endB (bj + k) rest := endB_ge g5
    have hgapL : opSlicesL a
        (if i < ai ∧ j < bj then [("replace", i, ai, j, bj)]
          else if i < ai then [("delete", i, ai, j, bj)]
          else if j < bj then [("insert", i, ai, j, bj)]
          else []) = sliceList a i ai := by
      by_cases h1 : i < ai ∧ j < bj
      · rw [if_pos h1]; simp [opSlicesL]
      · rw [if_neg h1]
        by_cases h2 : i < ai
        · rw [if_pos h2]; simp [opSlicesL]
        · have hia : i = ai := by omega
          by_cases h3 : j < bj
          · rw [if_neg h2, if_pos h3]
            simp [opSlicesL]
          · rw [if_neg h2, if_neg h3]
            simp only [opSlicesL, List.foldr_nil]
            rw [hia, sliceList_self]
    have hgapR : opSlicesR b
        (if i < ai ∧ j < bj then [("replace", i, ai, j, bj)]
          else if i < ai then [("delete", i, ai, j, bj)]
          else if j < bj then [("insert", i, ai, j, bj)]
          else []) = sliceList b j bj := by
      by_cases h1 : i < ai ∧ j < bj
      · rw [if_pos h1]; simp [opSlicesR]
      · rw [if_neg h1]
        by_cases h2 : i < ai
        · rw [if_pos h2]; simp [opSlicesR]
        · have hia : i = ai := by omega
          by_cases h3 : j < bj
          · rw [if_neg h2, if_pos h3]
            simp [opSlicesR]
          · rw [if_neg h2, if_neg h3]
            have hjb : j = bj := by omega
            simp only [opSlicesR, List.foldr_nil]
            rw [hjb, sliceList_self]
    have heqL : opSlicesL a
        (if k ≠ 0 then [("equal", ai, ai + k, bj, bj + k)] else []) =
        sliceList a ai (ai + k) := by
      by_cases hk : k ≠ 0
      · rw [if_pos hk]; simp [opSlicesL]
      · rw [if_neg hk]
        have : k = 0 := by omega
        subst this
        simp only [opSlicesL, List.foldr_nil, Nat.add_zero]
        rw [sliceList_self]
    have heqR : opSlicesR b
        (if k ≠ 0 then [("equal", ai, ai + k, bj, bj + k)] else []) =
        sliceList b bj (bj + k) := by
      by_cases hk : k ≠ 0
      · rw [if_pos hk]; simp [opSlicesR]
      · rw [if_neg hk]
        have : k = 0 := by omega
        subst this
        simp only [opSlicesR, List.foldr_nil, Nat.add_zero]
        rw [sliceList_self]
    constructor
    · show opSlicesL a (_ ++ _ ++ _) = _
      rw [opSlicesL_append, opSlicesL_append, hgapL, heqL, ihl]
      simp only [endA]
      have s1 : sliceList a i ai ++ sliceList a ai (ai + k) =
          sliceList a i (ai + k) := sliceList_append_slice a g1 (by omega)
      rw [s1]
      exact sliceList_append_slice a (by omega) hendA
    · show opSlicesR b (_ ++ _ ++ _) = _
      rw [opSlicesR_append, opSlicesR_append, hgapR, heqR, ihr]
      simp only [endB]
      have s1 : sliceList b j bj ++ sliceList b bj (bj + k) =
          sliceList b j (bj + k) := sliceList_append_slice b g2 (by omega)
      rw [s1]
      exact sliceList_append_slice b (by omega) hendB

/-- Reconstruction invariant of `get_opcodes`: the ordered concatenation of
the left slices of all opcodes is `a`, and of the right slices is `b`. -/
theorem getOpcodes_reconstruct (a b : List α) :
    opSlicesL a (getOpcodes a b) = a ∧ opSlicesR b (getOpcodes a b) = b := by
  obtain ⟨l, hl, hOK, _⟩ := getMatchingBlocks_struct a b
  unfold getOpcodes
  rw [hl]
  have hmono : MonoB 0 0 a.length b.length (l ++ [(a.length, b.length, 0)]) :=
    monoB_append_single hOK.monoB (by omega) (by omega)
  obtain ⟨hL, hR⟩ := opcodesAux_slices a b a.length b.length _ 0 0 hmono
  rw [hL, hR]
  rw [endA_append, endB_append]
  constructor
  · show sliceList a 0 (endA (a.length + 0) []) = a
    simp [endA, sliceList]
  · show sliceList b 0 (endB (b.length + 0) []) = b
    simp [endB, sliceList]

/-- Total size covered by the equal-kind opcodes. -/
def sumEqual (ops : List Opcode) : Nat :=
  ((ops.filter (fun op => op.1 = "equal")).map
    (fun op => op.2.2.1 - op.2.1)).sum

theorem sumEqual_append : ∀ l1 l2, sumEqual (l1 ++ l2) = sumEqual l1 + sumEqual l2 := by
  intro l1 l2
  simp [sumEqual, List.filter_append]

/-- The equal-kind opcodes cover exactly the matching blocks. -/
theorem opcodesAux_sumEqual (a b : List α) :
    ∀ (blocks : List (Nat × Nat × Nat)) (i j : Nat),
      sumEqual (opcodesAux a b i j blocks) = sumK blocks := by
  intro blocks
  induction blocks with
  | nil => intro i j; simp [opcodesAux, sumEqual, sumK]
  | cons hd rest ih =>
    intro i j
    obtain ⟨ai, bj, k⟩ := hd
    show sumEqual (_ ++ _ ++ _) = _
    rw [sumEqual_append, sumEqual_append]
    have hgap : sumEqual
        (if i < ai ∧ j < bj then [("replace", i, ai, j, bj)]
          else if i < ai then [("delete", i, ai, j, bj)]
          else if j < bj then [("insert", i, ai, j, bj)]
          else []) = 0 := by
      by_cases h1 : i < ai ∧ j < bj
      · rw [if_pos h1]; simp [sumEqual]
      · rw [if_neg h1]
        by_cases h2 : i < ai
        · rw [if_pos h2]; simp [sumEqual]
        · by_cases h3 : j < bj
          · rw [if_neg h2, if_pos h3]; simp [sumEqual]
          · rw [if_neg h2, if_neg h3]; simp [sumEqual]
    have heq : sumEqual
        (if k ≠ 0 then [("equal", ai, ai + k, bj, bj + k)] else []) = k := by
      by_cases hk : k ≠ 0
      · rw [if_pos hk]
        simp [sumEqual]
      · rw [if_neg hk]
        have : k = 0 := by omega
        subst this
        simp [sumEqual]
    rw [hgap, heq, ih (ai + k) (bj + k)]
    simp [sumK]

/-- `ratio`'s matched total equals the total of the equal-kind opcodes. -/
theorem sumEqual_getOpcodes (a b : List α) :
    sumEqual (getOpcodes a b) = totalMatched a b := by
  unfold getOpcodes totalMatched
  rw [opcodesAux_sumEqual a b (getMatchingBlocks a b) 0 0]
  rfl

/-- Column `r` is scannable on the diagonal: `s[r]` exists and `r` is one of
the columns scanned for value `s[r]` in the window `[lo, hi)`. -/
def inD (s : List α) (lo hi r : Nat) : Bool :=
  match s.get? r with
  | some x => decide (r ∈ rowJs (b2j s x) lo hi)
  | none => false

/-- Length of the diagonal run of scannable columns ending at `r`. -/
def Dg (s : List α) (lo hi : Nat) : Nat → Nat
  | 0 => if inD s lo hi 0 then 1 else 0
  | r + 1 => if inD s lo hi (r + 1) then Dg s lo hi r + 1 else 0

theorem positions_sorted (b : List α) (x : α) :
    (positions b x).Pairwise (· < ·) :=
  List.Pairwise.filter _ (List.pairwise_lt_range b.length)

theorem b2j_sorted (b : List α) (x : α) : (b2j b x).Pairwise (· < ·) := by
  unfold b2j
  by_cases hp : isPopular b x
  · rw [if_pos hp]; exact List.Pairwise.nil
  · rw [if_neg hp]; exact positions_sorted b x

theorem mem_rowJs_of_sorted {js : List Nat} (hs : js.Pairwise (· < ·))
    {lo hi j : Nat} (hj : j ∈ js) (h1 : lo ≤ j) (h2 : j < hi) :
    j ∈ rowJs js lo hi := by
  induction js with
  | nil => cases hj
  | cons y ys ih =>
    have hsy := List.pairwise_cons.mp hs
    unfold rowJs at ih ⊢
    rcases List.mem_cons.mp hj with rfl | hmem
    · rw [List.filter_cons, if_pos (by simpa using h1)]
      rw [List.takeWhile_cons, if_pos (by simpa using h2)]
      exact List.mem_cons_self _ _
    · have hyj : y < j := hsy.1 j hmem
      rw [List.filter_cons]
      by_cases hly : lo ≤ y
      · rw [if_pos (by simpa using hly)]
        rw [List.takeWhile_cons, if_pos (by simp; omega)]
        exact List.mem_cons_of_mem _ (ih hsy.2 hmem)
      · rw [if_neg (by simpa using hly)]
        exact ih hsy.2 hmem

/-- If some column is scanned for value `x = s[i]` and `i` itself lies in
the window, then column `i` is scanned too (popularity depends only on the
value). -/
theorem diag_mem_rowJs {s : List α} {x : α} {lo hi i j : Nat}
    (hj : j ∈ rowJs (b2j s x) lo hi) (hx : s.get? i = some x)
    (h1 : lo ≤ i) (h2 : i < hi) : i ∈ rowJs (b2j s x) lo hi := by
  have hb := (mem_of_mem_rowJs hj).1
  have hnp : ¬isPopular s x := by
    intro hp
    unfold b2j at hb
    rw [if_pos hp] at hb
    cases hb
  have hib : i ∈ b2j s x := by
    unfold b2j
    rw [if_neg hnp]
    exact mem_positions.mpr hx
  exact mem_rowJs_of_sorted (b2j_sorted s x) hib h1 h2

theorem inD_true_iff {s : List α} {lo hi r : Nat} :
    inD s lo hi r = true ↔
      ∃ x, s.get? r = some x ∧ r ∈ rowJs (b2j s x) lo hi := by
  unfold inD
  cases hr : s.get? r with
  | none => simp
  | some x => simp

theorem inD_bounds {s : List α} {lo hi r : Nat} (h : inD s lo hi r = true) :
    lo ≤ r ∧ r < hi := by
  obtain ⟨x, _, hmem⟩ := inD_true_iff.mp h
  exact (mem_of_mem_rowJs hmem).2

/-- A run of scannable diagonal columns ending at `r` bounds `Dg` below. -/
theorem dg_ge_of_run {s : List α} {lo hi : Nat} :
    ∀ {k r : Nat}, (∀ t, t < k → inD s lo hi (r - t) = true) → k ≤ r + 1 →
      k ≤ Dg s lo hi r := by
  intro k
  induction k with
  | zero => intro r _ _; omega
  | succ k ih =>
    intro r hrun hk
    have h0 : inD s lo hi r = true := by simpa using hrun 0 (by omega)
    match r with
    | 0 =>
      have : k = 0 := by omega
      subst this
      simp [Dg, h0]
    | r' + 1 =>
      have hrest : ∀ t, t < k → inD s lo hi (r' - t) = true := by
        intro t ht
        have : r' - t = r' + 1 - (t + 1) := by omega
        rw [this]
        exact hrun (t + 1) (by omega)
      have := ih hrest (by omega)
      simp only [Dg, h0, if_true]
      omega

/-- For a chain of the self-comparison, every scanned column index is itself
a scannable diagonal column. -/
theorem echain_col_run {s : List α} {lo hi r j k : Nat}
    (h : EChain s s lo lo hi r j k) :
    ∀ t, t < k → inD s lo hi (j - t) = true := by
  intro t ht
  obtain ⟨x, hax, hmem⟩ := h.2.2.2.2 t ht
  have hbx := mem_of_mem_b2j (mem_of_mem_rowJs hmem).1
  exact inD_true_iff.mpr ⟨x, hbx, hmem⟩

/-- For a chain of the self-comparison ending at row `r < hi`, the row
indices form a scannable diagonal run as well. -/
theorem echain_row_run {s : List α} {lo hi r j k : Nat}
    (h : EChain s s lo lo hi r j k) (hr : r < hi) :
    ∀ t, t < k → inD s lo hi (r - t) = true := by
  intro t ht
  obtain ⟨hk1, hkr, hkj, hka, hch⟩ := h
  obtain ⟨x, hax, hmem⟩ := hch t ht
  refine inD_true_iff.mpr ⟨x, hax, ?_⟩
  exact diag_mem_rowJs hmem hax (by omega) (by omega)

/-- Chains of the self-comparison are bounded by the diagonal run ending at
their column. -/
theorem echain_le_dg_col {s : List α} {lo hi r j k : Nat}
    (h : EChain s s lo lo hi r j k) : k ≤ Dg s lo hi j := by
  exact dg_ge_of_run (echain_col_run h) (by exact h.2.2.1)

/-- Chains of the self-comparison are bounded by the diagonal run ending at
their row. -/
theorem echain_le_dg_row {s : List α} {lo hi r j k : Nat}
    (h : EChain s s lo lo hi r j k) (hr : r < hi) : k ≤ Dg s lo hi r := by
  exact dg_ge_of_run (echain_row_run h hr) (by exact h.2.1)

theorem dg_eq_zero_of_lt {s : List α} {lo hi r : Nat} (h : r < lo) :
    Dg s lo hi r = 0 := by
  have hind : inD s lo hi r = false := by
    by_contra hx
    have := inD_bounds (by simpa using Bool.of_not_eq_false hx)
    omega
  match r with
  | 0 => simp [Dg, hind]
  | r' + 1 => simp [Dg, hind]

theorem dg_eq_zero_of_not_inD {s : List α} {lo hi r : Nat}
    (h : inD s lo hi r = false) : Dg s lo hi r = 0 := by
  match r with
  | 0 => simp [Dg, h]
  | r' + 1 => simp [Dg, h]

theorem rowJs_sorted {js : List Nat} (hs : js.Pairwise (· < ·))
    (blo bhi : Nat) : (rowJs js blo bhi).Pairwise (· < ·) := by
  unfold rowJs
  exact (hs.filter _).sublist ((js.filter _).takeWhile_sublist _)

theorem rowBest_no_update {j2len : Nat → Nat} {i : Nat} :
    ∀ (js : List Nat) (best : Nat × Nat × Nat),
      (∀ j ∈ js, newLen j2len j ≤ best.2.2) →
      rowBest j2len i js best = best := by
  intro js
  induction js with
  | nil => intro best _; rfl
  | cons y ys ih =>
    intro best h
    unfold rowBest at ih ⊢
    rw [List.foldl_cons]
    have hy := h y (List.mem_cons_self _ _)
    have hstep : rowStep j2len i best y = best := by
      simp only [rowStep]
      rw [if_neg (by omega)]
    rw [hstep]
    exact ih best (fun j hj => h j (List.mem_cons_of_mem _ hj))

/-- Invariant of the main loop for the self-comparison on an aligned
window: chain entries are sound, the freshest diagonal entry equals the
diagonal run length, and the best triple is diagonal and dominates every
diagonal run that has ended so far. -/
def DInv (s : List α) (lo hi : Nat) (i : Nat)
    (st : (Nat → Nat) × (Nat × Nat × Nat)) : Prop :=
  lo ≤ i ∧
  (∀ j, st.1 j ≠ 0 →
    1 ≤ i ∧ i - 1 < hi ∧ EChain s s lo lo hi (i - 1) j (st.1 j)) ∧
  (∀ r, r + 1 = i → st.1 r = Dg s lo hi r) ∧
  st.2.1 = st.2.2.1 ∧
  (st.2.2.2 = 0 → st.2 = (lo, lo, 0)) ∧
  MatchIn s s lo i lo hi st.2 ∧
  (∀ r, r < i → Dg s lo hi r ≤ st.2.2.2)

theorem dinv_step {s : List α} {lo hi : Nat} (hhi : hi ≤ s.length) :
    ∀ i st, i < hi → DInv s lo hi i st →
      DInv s lo hi (i + 1) (mainStep s s lo hi st i) := by
  intro i st hi_lt hinv
  obtain ⟨hlo, hsound, hdg, hdiag, hzero, hbest, hdom⟩ := hinv
  have hxlen : i < s.length := by omega
  obtain ⟨x, hx⟩ : ∃ x, s.get? i = some x :=
    ⟨s.get ⟨i, hxlen⟩, List.get?_eq_get hxlen⟩
  have hjs : rowOf s s lo hi i = rowJs (b2j s x) lo hi := by
    unfold rowOf; rw [hx]
  have hsound' : ∀ j, st.1 j ≠ 0 →
      1 ≤ i ∧ EChain s s lo lo hi (i - 1) j (st.1 j) :=
    fun j hj => ⟨(hsound j hj).1, (hsound j hj).2.2⟩
  have hchain : ∀ j ∈ rowJs (b2j s x) lo hi,
      EChain s s lo lo hi i j (newLen st.1 j) :=
    fun j hj => newLen_chain hx hlo hsound' hj
  have hinD_iff : inD s lo hi i = true ↔ i ∈ rowJs (b2j s x) lo hi := by
    unfold inD
    rw [hx]
    simp
  have hnewi : inD s lo hi i = true → newLen st.1 i = Dg s lo hi i := by
    intro hD
    by_cases hi0 : i = 0
    · subst hi0
      simp [newLen, Dg, hD]
    · obtain ⟨n, rfl⟩ : ∃ n, i = n + 1 := ⟨i - 1, by omega⟩
      have hdgn : st.1 n = Dg s lo hi n := hdg n rfl
      show (if n + 1 = 0 then 0 else st.1 (n + 1 - 1)) + 1 = Dg s lo hi (n + 1)
      rw [if_neg (Nat.succ_ne_zero n)]
      simp only [Nat.add_sub_cancel]
      rw [hdgn]
      simp [Dg, hD]
  -- the new j2len function
  have hj2len' : ∀ j, newJ2len st.1 (rowJs (b2j s x) lo hi) j ≠ 0 →
      j ∈ rowJs (b2j s x) lo hi ∧
        newJ2len st.1 (rowJs (b2j s x) lo hi) j = newLen st.1 j := by
    intro j hj
    unfold newJ2len at hj ⊢
    by_cases hm : j ∈ rowJs (b2j s x) lo hi
    · rw [if_pos hm] at hj ⊢
      exact ⟨hm, rfl⟩
    · rw [if_neg hm] at hj
      exact absurd rfl hj
  unfold mainStep
  rw [hjs]
  show DInv s lo hi (i + 1)
    (newJ2len st.1 (rowJs (b2j s x) lo hi),
      rowBest st.1 i (rowJs (b2j s x) lo hi) st.2)
  unfold DInv
  dsimp only
  by_cases hex : ∃ j0, j0 ∈ rowJs (b2j s x) lo hi
  case neg =>
    -- empty row: nothing changes in the best triple
    have hnil : rowJs (b2j s x) lo hi = [] := by
      rcases h : rowJs (b2j s x) lo hi with _ | ⟨y, ys⟩
      · rfl
      · exact absurd ⟨y, h ▸ List.mem_cons_self y ys⟩ hex
    have hDi : inD s lo hi i = false := by
      by_contra hc
      have := hinD_iff.mp (by simpa using Bool.of_not_eq_false hc)
      rw [hnil] at this
      cases this
    rw [hnil]
    simp only [rowBest, List.foldl_nil]
    refine ⟨by omega, ?_, ?_, hdiag, hzero, ?_, ?_⟩
    · intro j hj
      simp [newJ2len] at hj
    · intro r hr
      have hri : r = i := by omega
      subst hri
      simp [newJ2len, dg_eq_zero_of_not_inD hDi]
    · obtain ⟨g1, g2, g3, g4, g5⟩ := hbest
      exact ⟨g1, g2, by omega, g4, g5⟩
    · intro r hr
      by_cases hri : r = i
      · subst hri
        rw [dg_eq_zero_of_not_inD hDi]
        omega
      · exact hdom r (by omega)
  case pos =>
    obtain ⟨j0, hj0⟩ := hex
    have hi_mem : i ∈ rowJs (b2j s x) lo hi :=
      diag_mem_rowJs hj0 hx hlo hi_lt
    have hD : inD s lo hi i = true := hinD_iff.mpr hi_mem
    have hki : newLen st.1 i = Dg s lo hi i := hnewi hD
    obtain ⟨pre, post, hsplit⟩ := List.append_of_mem hi_mem
    have hsorted : (rowJs (b2j s x) lo hi).Pairwise (· < ·) :=
      rowJs_sorted (b2j_sorted s x) lo hi
    rw [hsplit] at hsorted
    have hpair := List.pairwise_append.mp hsorted
    have hpre_lt : ∀ j ∈ pre, j < i :=
      fun j hj => hpair.2.2 j hj i (List.mem_cons_self _ _)
    have hpost_gt : ∀ j ∈ post, i < j :=
      fun j hj => (List.pairwise_cons.mp hpair.2.1).1 j hj
    -- no update happens while scanning the columns before the diagonal
    have hbnd_pre : ∀ j ∈ pre, newLen st.1 j ≤ st.2.2.2 := by
      intro j hj
      have hmem : j ∈ rowJs (b2j s x) lo hi := by
        rw [hsplit]
        exact List.mem_append_left _ hj
      have hch := hchain j hmem
      have h1 := echain_le_dg_col hch
      have h2 := hdom j (by
        have := hpre_lt j hj
        omega)
      omega
    -- decompose the fold
    have hsplit_fold : rowBest st.1 i (rowJs (b2j s x) lo hi) st.2 =
        rowBest st.1 i post (rowStep st.1 i (rowBest st.1 i pre st.2) i) := by
      rw [hsplit]
      unfold rowBest
      rw [List.foldl_append, List.foldl_cons]
    rw [hsplit_fold, rowBest_no_update pre st.2 hbnd_pre]
    -- the step on the diagonal column
    have hchi := hchain i hi_mem
    by_cases hupd : st.2.2.2 < newLen st.1 i
    · -- diagonal update
      have hstep : rowStep st.1 i st.2 i =
          (i + 1 - newLen st.1 i, i + 1 - newLen st.1 i, newLen st.1 i) := by
        simp only [rowStep]
        rw [if_pos hupd]
      rw [hstep]
      have hbnd_post : ∀ j ∈ post, newLen st.1 j ≤
          (i + 1 - newLen st.1 i, i + 1 - newLen st.1 i, newLen st.1 i).2.2 := by
        intro j hj
        have hmem : j ∈ rowJs (b2j s x) lo hi := by
          rw [hsplit]
          exact List.mem_append_right _ (List.mem_cons_of_mem _ hj)
        have hch := hchain j hmem
        have h1 := echain_le_dg_row hch hi_lt
        rw [hki]
        simpa using h1
      rw [rowBest_no_update post _ hbnd_post]
      have hmi := hchi.matchIn (show i < i + 1 by omega)
      refine ⟨by omega, ?_, ?_, rfl, ?_, hmi, ?_⟩
      · intro j hj
        obtain ⟨hm, he⟩ := hj2len' j hj
        rw [he]
        exact ⟨by omega, by simpa using hi_lt, by simpa using hchain j hm⟩
      · intro r hr
        have hri : r = i := by omega
        subst hri
        simp only [newJ2len]
        rw [if_pos hi_mem]
        exact hki
      · intro h0
        dsimp only at h0
        have := hchi.1
        omega
      · intro r hr
        show Dg s lo hi r ≤ newLen st.1 i
        by_cases hri : r = i
        · subst hri; omega
        · have := hdom r (by omega)
          omega
    · -- the best already dominates the diagonal run ending here
      have hstep : rowStep st.1 i st.2 i = st.2 := by
        simp only [rowStep]
        rw [if_neg hupd]
      rw [hstep]
      have hbnd_post : ∀ j ∈ post, newLen st.1 j ≤ st.2.2.2 := by
        intro j hj
        have hmem : j ∈ rowJs (b2j s x) lo hi := by
          rw [hsplit]
          exact List.mem_append_right _ (List.mem_cons_of_mem _ hj)
        have hch := hchain j hmem
        have h1 := echain_le_dg_row hch hi_lt
        omega
      rw [rowBest_no_update post _ hbnd_post]
      refine ⟨by omega, ?_, ?_, hdiag, hzero, ?_, ?_⟩
      · intro j hj
        obtain ⟨hm, he⟩ := hj2len' j hj
        rw [he]
        exact ⟨by omega, by simpa using hi_lt, by simpa using hchain j hm⟩
      · intro r hr
        have hri : r = i := by omega
        subst hri
        simp only [newJ2len]
        rw [if_pos hi_mem]
        exact hki
      · obtain ⟨g1, g2, g3, g4, g5⟩ := hbest
        exact ⟨g1, g2, by omega, g4, g5⟩
      · intro r hr
        by_cases hri : r = i
        · subst hri; omega
        · exact hdom r (by omega)

/-- On an aligned window of the self-comparison the main loop returns a
diagonal triple that is sound and dominates every diagonal run. -/
theorem mainLoop_self_diag (s : List α) (lo hi : Nat) (h1 : lo ≤ hi)
    (hhi : hi ≤ s.length) :
    (mainLoop s s lo hi lo hi).1 = (mainLoop s s lo hi lo hi).2.1 ∧
      ((mainLoop s s lo hi lo hi).2.2 = 0 →
        mainLoop s s lo hi lo hi = (lo, lo, 0)) ∧
      MatchIn s s lo hi lo hi (mainLoop s s lo hi lo hi) := by
  unfold mainLoop
  have hinit : DInv s lo hi lo ((fun _ => 0), (lo, lo, 0)) := by
    refine ⟨le_refl _, ?_, ?_, rfl, fun _ => rfl, ?_, ?_⟩
    · intro j hj; exact absurd rfl hj
    · intro r hr
      exact (dg_eq_zero_of_lt (by omega)).symm
    · exact matchIn_mk (le_refl _) (le_refl _) (by omega) (by omega)
        (fun t ht => by omega)
    · intro r hr
      rw [dg_eq_zero_of_lt hr]
  have := range'_foldl_inv (mainStep s s lo hi) (DInv s lo hi) hi
    (dinv_step hhi) (hi - lo) lo ((fun _ => 0), (lo, lo, 0)) (by omega) hinit
  have harith : lo + (hi - lo) = hi := by omega
  rw [harith] at this
  obtain ⟨_, _, _, c4, c5, c6, _⟩ := this
  exact ⟨c4, c5, c6⟩

theorem sameAt_self {s : List α} {d : Nat} (h : d < s.length) :
    sameAt s s d d = true := by
  rw [sameAt_iff]
  exact ⟨s.get ⟨d, h⟩, List.get?_eq_get h, List.get?_eq_get h⟩

theorem extendBack_self (s : List α) (lo : Nat) :
    ∀ d k, lo ≤ d → d ≤ s.length →
      extendBack s s lo lo d d k = (lo, lo, k + (d - lo)) := by
  intro d
  induction d with
  | zero =>
    intro k h1 h2
    have : lo = 0 := by omega
    subst this
    simp [extendBack]
  | succ n ih =>
    intro k h1 h2
    by_cases hd : lo < n + 1
    · rw [extendBack, if_pos ⟨hd, hd, by
        simpa using sameAt_self (show n < s.length by omega)⟩]
      have hsub : n + 1 - 1 = n := by omega
      rw [hsub]
      rw [ih (k + 1) (by omega) (by omega)]
      have : k + 1 + (n - lo) = k + (n + 1 - lo) := by omega
      rw [this]
    · rw [extendBack, if_neg (by omega)]
      have : lo = n + 1 := by omega
      subst this
      simp
  
theorem extendFwd_self (s : List α) (lo hi : Nat) (hhi : hi ≤ s.length) :
    ∀ n k, hi - (lo + k) ≤ n → lo + k ≤ hi →
      extendFwd s s hi hi n lo lo k = (lo, lo, hi - lo) := by
  intro n
  induction n with
  | zero =>
    intro k h1 h2
    have : k = hi - lo := by omega
    rw [extendFwd, this]
  | succ n ih =>
    intro k h1 h2
    by_cases hk : lo + k < hi
    · rw [extendFwd, if_pos ⟨hk, hk, sameAt_self (by omega)⟩]
      exact ih (k + 1) (by omega) (by omega)
    · rw [extendFwd, if_neg (by omega)]
      have : k = hi - lo := by omega
      rw [this]

/-- On an aligned window, `find_longest_match` of a sequence against itself
returns the whole window. -/
theorem findLongestMatch_self (s : List α) (lo hi : Nat) (h1 : lo ≤ hi)
    (hhi : hi ≤ s.length) :
    findLongestMatch s s lo hi lo hi = (lo, lo, hi - lo) := by
  obtain ⟨hdiag, hzero, hmatch⟩ := mainLoop_self_diag s lo hi h1 hhi
  unfold findLongestMatch
  rcases hp : mainLoop s s lo hi lo hi with ⟨bi, bj, bs⟩
  rw [hp] at hdiag hzero hmatch
  obtain ⟨m1, m2, m3, m4, m5⟩ := hmatch
  dsimp only at hdiag m1 m2 m3 m4 hzero
  subst hdiag
  show extendFwd s s hi hi _ (extendBack s s lo lo bi bi bs).1
    (extendBack s s lo lo bi bi bs).2.1 (extendBack s s lo lo bi bi bs).2.2 =
    (lo, lo, hi - lo)
  by_cases hz : bs = 0
  · subst hz
    have h0 := hzero rfl
    have hbl : bi = lo := by
      have := congrArg (fun p => p.1) h0
      simpa using this
    rw [hbl, extendBack_start]
    exact extendFwd_self s lo hi hhi (hi - (lo + 0)) 0 (by omega) (by omega)
  · rw [extendBack_self s lo bi bs m1 (by omega)]
    dsimp only
    exact extendFwd_self s lo hi hhi _ _ (by omega) (by omega)

/-- The block recursion on a sequence against itself finds the single
full block. -/
theorem matchingBlocksRec_self (s : List α) (fuel : Nat) (hfuel : fuel ≠ 0)
    (hne : s.length ≠ 0) :
    matchingBlocksRec s s fuel 0 s.length 0 s.length = [(0, 0, s.length)] := by
  obtain ⟨n, rfl⟩ : ∃ n, fuel = n + 1 := ⟨fuel - 1, by omega⟩
  have hflm := findLongestMatch_self s 0 s.length (by omega) (le_refl _)
  rw [matchingBlocksRec]
  rw [if_neg (by rw [hflm]; simpa using hne)]
  rw [if_neg (by rw [hflm]; dsimp only; omega)]
  rw [if_neg (by rw [hflm]; dsimp only; omega)]
  rw [hflm]
  simp

theorem matchingBlocksRec_self_nil (s : List α) (fuel : Nat)
    (hz : s.length = 0) :
    matchingBlocksRec s s fuel 0 s.length 0 s.length = [] := by
  cases fuel with
  | zero => rw [matchingBlocksRec]
  | succ n =>
    have hflm := findLongestMatch_self s 0 s.length (by omega) (le_refl _)
    rw [matchingBlocksRec]
    rw [if_pos (by rw [hflm]; dsimp only; omega)]

/-- `get_matching_blocks` of a sequence against itself. -/
theorem getMatchingBlocks_self (s : List α) :
    getMatchingBlocks s s =
      if s.length = 0 then [(0, 0, 0)]
      else [(0, 0, s.length), (s.length, s.length, 0)] := by
  unfold getMatchingBlocks
  by_cases hz : s.length = 0
  · rw [if_pos hz, matchingBlocksRec_self_nil s s.length hz]
    simp only [List.foldl_nil]
    rw [if_neg (by simp)]
    simp [hz]
  · rw [if_neg hz, matchingBlocksRec_self s s.length hz hz]
    have hstep : collapseStep ((0, 0, 0), []) (0, 0, s.length) =
        ((0, 0, 0 + s.length), []) := by
      unfold collapseStep
      rw [if_pos (by exact ⟨rfl, rfl⟩)]
    simp only [List.foldl_cons, List.foldl_nil, hstep]
    rw [if_pos (by simpa using hz)]
    simp

theorem totalMatched_self (s : List α) : totalMatched s s = s.length := by
  unfold totalMatched
  rw [getMatchingBlocks_self]
  by_cases hz : s.length = 0
  · rw [if_pos hz]
    simp [hz]
  · rw [if_neg hz]
    simp

/-- `ratio` of a sequence against itself is `1` (also for the empty
sequence, where `_calculate_ratio` returns `1.0` by convention). -/
theorem ratio_self (s : List α) : ratio s s = 1 := by
  unfold ratio calculateRatio
  rw [totalMatched_self]
  by_cases hz : s.length = 0
  · rw [if_neg (by omega)]
  · rw [if_pos (by omega)]
    have hne : ((s.length : ℚ) + (s.length : ℚ)) ≠ 0 := by
      have : (0 : ℚ) < (s.length : ℚ) := by
        exact_mod_cast Nat.pos_of_ne_zero hz
      positivity
    field_simp
    ring

/-- `get_opcodes` of a sequence against itself is a single equal opcode (or
nothing at all for the empty sequence). -/
theorem getOpcodes_self (s : List α) :
    getOpcodes s s =
      if s.length = 0 then []
      else [("equal", 0, s.length, 0, s.length)] := by
  unfold getOpcodes
  rw [getMatchingBlocks_self]
  by_cases hz : s.length = 0
  · rw [if_pos hz, if_pos hz]
    simp [opcodesAux]
  · rw [if_neg hz, if_neg hz]
    simp [opcodesAux, hz]

/-- Full coverage on both sides forces pointwise equality throughout the
window. -/
theorem blocksOK_full {a b : List α} :
    ∀ {l : List (Nat × Nat × Nat)} {lo lj hi hj : Nat},
      BlocksOK a b lo lj hi hj l → lo ≤ hi → lj ≤ hj →
      sumK l = hi - lo → sumK l = hj - lj →
      ∀ t, t < hi - lo → sameAt a b (lo + t) (lj + t) = true := by
  intro l
  induction l with
  | nil =>
    intro lo lj hi hj _ h1 h2 hs1 hs2 t ht
    simp [sumK] at hs1
    omega
  | cons hd tl ih =>
    intro lo lj hi hj h h1 h2 hs1 hs2 t ht
    obtain ⟨i, j, k⟩ := hd
    obtain ⟨g1, g2, g3, g4, g5, g6, g7⟩ := h
    have hsum_tl := blocksOK_sum_le g7
    have hc1 : k + sumK tl = hi - lo := by
      simp only [sumK, List.map_cons, List.sum_cons] at hs1
      simpa [sumK] using hs1
    have hc2 : k + sumK tl = hj - lj := by
      simp only [sumK, List.map_cons, List.sum_cons] at hs2
      simpa [sumK] using hs2
    have htl_sum : sumK tl ≤ hi - (i + k) := hsum_tl.1
    have htl_sum' : sumK tl ≤ hj - (j + k) := hsum_tl.2
    -- coverage forces the first block to start at the window edge
    have hi_eq : i = lo := by omega
    have hj_eq : j = lj := by omega
    subst hi_eq
    subst hj_eq
    by_cases htk : t < k
    · exact g6 t htk
    · have hrec := ih g7 (by omega) (by omega) (by omega) (by omega)
        (t - k) (by omega)
      have e1 : i + k + (t - k) = i + t := by omega
      have e2 : j + k + (t - k) = j + t := by omega
      rw [e1, e2] at hrec
      exact hrec

/-- Full coverage on both sides of the whole sequences forces equality of
the sequences. -/
theorem eq_of_full_coverage {a b : List α} {l : List (Nat × Nat × Nat)}
    (h : BlocksOK a b 0 0 a.length b.length l)
    (hs1 : sumK l = a.length) (hs2 : sumK l = b.length) : a = b := by
  have hlen : a.length = b.length := by omega
  have hpt := blocksOK_full h (by omega) (by omega) (by omega) (by omega)
  apply List.ext_get?
  intro n
  by_cases hn : n < a.length
  · have := hpt n (by omega)
    simp only [Nat.zero_add] at this
    obtain ⟨x, hx1, hx2⟩ := sameAt_iff.mp this
    rw [hx1, hx2]
  · rw [List.get?_eq_none.mpr (by omega), List.get?_eq_none.mpr (by omega)]

theorem totalMatched_le (a b : List α) :
    totalMatched a b ≤ a.length ∧ totalMatched a b ≤ b.length := by
  obtain ⟨l, hl, hOK, _⟩ := getMatchingBlocks_struct a b
  have hsum := blocksOK_sum_le hOK
  unfold totalMatched
  rw [hl]
  show sumK (l ++ [(a.length, b.length, 0)]) ≤ _ ∧ _
  simp only [sumK, List.map_append, List.sum_append, List.map_cons,
    List.sum_cons, List.map_nil, List.sum_nil] at *
  omega

theorem eq_of_totalMatched_full (a b : List α)
    (h1 : totalMatched a b = a.length) (h2 : totalMatched a b = b.length) :
    a = b := by
  obtain ⟨l, hl, hOK, _⟩ := getMatchingBlocks_struct a b
  have hsl : totalMatched a b = sumK l := by
    unfold totalMatched
    rw [hl]
    simp [sumK]
  exact eq_of_full_coverage hOK (by omega) (by omega)

/-- `ratio` is `1` exactly on equal sequences (including both empty, where
`_calculate_ratio` returns `1.0` by its zero-length convention). -/
theorem ratio_eq_one_iff (a b : List α) : ratio a b = 1 ↔ a = b := by
  constructor
  · intro h
    unfold ratio calculateRatio at h
    by_cases hT : a.length + b.length ≠ 0
    · rw [if_pos hT] at h
      have hTQ : ((a.length + b.length : Nat) : ℚ) ≠ 0 := by
        exact_mod_cast hT
      rw [div_eq_one_iff_eq (by push_cast at hTQ ⊢; exact hTQ)] at h
      have h2 : 2 * totalMatched a b = a.length + b.length := by
        exact_mod_cast h
      have hle := totalMatched_le a b
      exact eq_of_totalMatched_full a b (by omega) (by omega)
    · have ha : a.length = 0 := by omega
      have hb : b.length = 0 := by omega
      rw [List.length_eq_zero.mp ha, List.length_eq_zero.mp hb]
  · intro h
    subst h
    exact ratio_self a

/-- With at least one side nonempty, `ratio` vanishes exactly when no token
was matched. -/
theorem ratio_eq_zero_iff (a b : List α) (h : a.length + b.length ≠ 0) :
    ratio a b = 0 ↔ totalMatched a b = 0 := by
  unfold ratio calculateRatio
  rw [if_pos h]
  have hTQ : ((a.length : ℚ) + (b.length : ℚ)) ≠ 0 := by
    have : ((a.length + b.length : Nat) : ℚ) ≠ 0 := by exact_mod_cast h
    push_cast at this
    exact this
  rw [div_eq_zero_iff]
  push_cast
  constructor
  · intro hc
    rcases hc with hc | hc
    · have : (totalMatched a b : ℚ) = 0 := by linarith
      exact_mod_cast this
    · exact absurd hc hTQ
  · intro hc
    left
    rw [hc]
    simp

end Difflib

namespace OCRComparison

open Difflib

/-- The inclusive codepoint ranges of Python's `\w` word-character class
(the default Unicode-aware `re` behaviour for `str` patterns): every
codepoint `c` with `re.match(r'[\w]', chr(c))` in CPython 3.11, i.e. the
Unicode alphanumerics (alphabetic, decimal, digit or numeric characters)
together with the underscore connector, enumerated over the whole codepoint
space and compressed into maximal runs. -/
def wordRanges : List (Nat × Nat) := [
    (48, 57), (65, 90), (95, 95), (97, 122), (170, 170), (178, 179),
    (181, 181), (185, 186), (188, 190), (192, 214), (216, 246), (248, 705),
    (710, 721), (736, 740), (748, 748), (750, 750), (880, 884), (886, 887),
    (890, 893), (895, 895), (902, 902), (904, 906), (908, 908), (910, 929),
    (931, 1013), (1015, 1153), (1162, 1327), (1329, 1366), (1369, 1369), (1376, 1416),
    (1488, 1514), (1519, 1522), (1568, 1610), (1632, 1641), (1646, 1647), (1649, 1747),
    (1749, 1749), (1765, 1766), (1774, 1788), (1791, 1791), (1808, 1808), (1810, 1839),
    (1869, 1957), (1969, 1969), (1984, 2026), (2036, 2037), (2042, 2042), (2048, 2069),
    (2074, 2074), (2084, 2084), (2088, 2088), (2112, 2136), (2144, 2154), (2160, 2183),
    (2185, 2190), (2208, 2249), (2308, 2361), (2365, 2365), (2384, 2384), (2392, 2401),
    (2406, 2415), (2417, 2432), (2437, 2444), (2447, 2448), (2451, 2472), (2474, 2480),
    (2482, 2482), (2486, 2489), (2493, 2493), (2510, 2510), (2524, 2525), (2527, 2529),
    (2534, 2545), (2548, 2553), (2556, 2556), (2565, 2570), (2575, 2576), (2579, 2600),
    (2602, 2608), (2610, 2611), (2613, 2614), (2616, 2617), (2649, 2652), (2654, 2654),
    (2662, 2671), (2674, 2676), (2693, 2701), (2703, 2705), (2707, 2728), (2730, 2736),
    (2738, 2739), (2741, 2745), (2749, 2749), (2768, 2768), (2784, 2785), (2790, 2799),
    (2809, 2809), (2821, 2828), (2831, 2832), (2835, 2856), (2858, 2864), (2866, 2867),
    (2869, 2873), (2877, 2877), (2908, 2909), (2911, 2913), (2918, 2927), (2929, 2935),
    (2947, 2947), (2949, 2954), (2958, 2960), (2962, 2965), (2969, 2970), (2972, 2972),
    (2974, 2975), (2979, 2980), (2984, 2986), (2990, 3001), (3024, 3024), (3046, 3058),
    (3077, 3084), (3086, 3088), (3090, 3112), (3114, 3129), (3133, 3133), (3160, 3162),
    (3165, 3165), (3168, 3169), (3174, 3183), (3192, 3198), (3200, 3200), (3205, 3212),
    (3214, 3216), (3218, 3240), (3242, 3251), (3253, 3257), (3261, 3261), (3293, 3294),
    (3296, 3297), (3302, 3311), (3313, 3314), (3332, 3340), (3342, 3344), (3346, 3386),
    (3389, 3389), (3406, 3406), (3412, 3414), (3416, 3425), (3430, 3448), (3450, 3455),
    (3461, 3478), (3482, 3505), (3507, 3515), (3517, 3517), (3520, 3526), (3558, 3567),
    (3585, 3632), (3634, 3635), (3648, 3654), (3664, 3673), (3713, 3714), (3716, 3716),
    (3718, 3722), (3724, 3747), (3749, 3749), (3751, 3760), (3762, 3763), (3773, 3773),
    (3776, 3780), (3782, 3782), (3792, 3801), (3804, 3807), (3840, 3840), (3872, 3891),
    (3904, 3911), (3913, 3948), (3976, 3980), (4096, 4138), (4159, 4169), (4176, 4181),
    (4186, 4189), (4193, 4193), (4197, 4198), (4206, 4208), (4213, 4225), (4238, 4238),
    (4240, 4249), (4256, 4293), (4295, 4295), (4301, 4301), (4304, 4346), (4348, 4680),
    (4682, 4685), (4688, 4694), (4696, 4696), (4698, 4701), (4704, 4744), (4746, 4749),
    (4752, 4784), (4786, 4789), (4792, 4798), (4800, 4800), (4802, 4805), (4808, 4822),
    (4824, 4880), (4882, 4885), (4888, 4954), (4969, 4988), (4992, 5007), (5024, 5109),
    (5112, 5117), (5121, 5740), (5743, 5759), (5761, 5786), (5792, 5866), (5870, 5880),
    (5888, 5905), (5919, 5937), (5952, 5969), (5984, 5996), (5998, 6000), (6016, 6067),
    (6103, 6103), (6108, 6108), (6112, 6121), (6128, 6137), (6160, 6169), (6176, 6264),
    (6272, 6276), (6279, 6312), (6314, 6314), (6320, 6389), (6400, 6430), (6470, 6509),
    (6512, 6516), (6528, 6571), (6576, 6601), (6608, 6618), (6656, 6678), (6688, 6740),
    (6784, 6793), (6800, 6809), (6823, 6823), (6917, 6963), (6981, 6988), (6992, 7001),
    (7043, 7072), (7086, 7141), (7168, 7203), (7232, 7241), (7245, 7293), (7296, 7304),
    (7312, 7354), (7357, 7359), (7401, 7404), (7406, 7411), (7413, 7414), (7418, 7418),
    (7424, 7615), (7680, 7957), (7960, 7965), (7968, 8005), (8008, 8013), (8016, 8023),
    (8025, 8025), (8027, 8027), (8029, 8029), (8031, 8061), (8064, 8116), (8118, 8124),
    (8126, 8126), (8130, 8132), (8134, 8140), (8144, 8147), (8150, 8155), (8160, 8172),
    (8178, 8180), (8182, 8188), (8304, 8305), (8308, 8313), (8319, 8329), (8336, 8348),
    (8450, 8450), (8455, 8455), (8458, 8467), (8469, 8469), (8473, 8477), (8484, 8484),
    (8486, 8486), (8488, 8488), (8490, 8493), (8495, 8505), (8508, 8511), (8517, 8521),
    (8526, 8526), (8528, 8585), (9312, 9371), (9450, 9471), (10102, 10131), (11264, 11492),
    (11499, 11502), (11506, 11507), (11517, 11517), (11520, 11557), (11559, 11559), (11565, 11565),
    (11568, 11623), (11631, 11631), (11648, 11670), (11680, 11686), (11688, 11694), (11696, 11702),
    (11704, 11710), (11712, 11718), (11720, 11726), (11728, 11734), (11736, 11742), (11823, 11823),
    (12293, 12295), (12321, 12329), (12337, 12341), (12344, 12348), (12353, 12438), (12445, 12447),
    (12449, 12538), (12540, 12543), (12549, 12591), (12593, 12686), (12690, 12693), (12704, 12735),
    (12784, 12799), (12832, 12841), (12872, 12879), (12881, 12895), (12928, 12937), (12977, 12991),
    (13312, 19903), (19968, 42124), (42192, 42237), (42240, 42508), (42512, 42539), (42560, 42606),
    (42623, 42653), (42656, 42735), (42775, 42783), (42786, 42888), (42891, 42954), (42960, 42961),
    (42963, 42963), (42965, 42969), (42994, 43009), (43011, 43013), (43015, 43018), (43020, 43042),
    (43056, 43061), (43072, 43123), (43138, 43187), (43216, 43225), (43250, 43255), (43259, 43259),
    (43261, 43262), (43264, 43301), (43312, 43334), (43360, 43388), (43396, 43442), (43471, 43481),
    (43488, 43492), (43494, 43518), (43520, 43560), (43584, 43586), (43588, 43595), (43600, 43609),
    (43616, 43638), (43642, 43642), (43646, 43695), (43697, 43697), (43701, 43702), (43705, 43709),
    (43712, 43712), (43714, 43714), (43739, 43741), (43744, 43754), (43762, 43764), (43777, 43782),
    (43785, 43790), (43793, 43798), (43808, 43814), (43816, 43822), (43824, 43866), (43868, 43881),
    (43888, 44002), (44016, 44025), (44032, 55203), (55216, 55238), (55243, 55291), (63744, 64109),
    (64112, 64217), (64256, 64262), (64275, 64279), (64285, 64285), (64287, 64296), (64298, 64310),
    (64312, 64316), (64318, 64318), (64320, 64321), (64323, 64324), (64326, 64433), (64467, 64829),
    (64848, 64911), (64914, 64967), (65008, 65019), (65136, 65140), (65142, 65276), (65296, 65305),
    (65313, 65338), (65345, 65370), (65382, 65470), (65474, 65479), (65482, 65487), (65490, 65495),
    (65498, 65500), (65536, 65547), (65549, 65574), (65576, 65594), (65596, 65597), (65599, 65613),
    (65616, 65629), (65664, 65786), (65799, 65843), (65856, 65912), (65930, 65931), (66176, 66204),
    (66208, 66256), (66273, 66299), (66304, 66339), (66349, 66378), (66384, 66421), (66432, 66461),
    (66464, 66499), (66504, 66511), (66513, 66517), (66560, 66717), (66720, 66729), (66736, 66771),
    (66776, 66811), (66816, 66855), (66864, 66915), (66928, 66938), (66940, 66954), (66956, 66962),
    (66964, 66965), (66967, 66977), (66979, 66993), (66995, 67001), (67003, 67004), (67072, 67382),
    (67392, 67413), (67424, 67431), (67456, 67461), (67463, 67504), (67506, 67514), (67584, 67589),
    (67592, 67592), (67594, 67637), (67639, 67640), (67644, 67644), (67647, 67669), (67672, 67702),
    (67705, 67742), (67751, 67759), (67808, 67826), (67828, 67829), (67835, 67867), (67872, 67897),
    (67968, 68023), (68028, 68047), (68050, 68096), (68112, 68115), (68117, 68119), (68121, 68149),
    (68160, 68168), (68192, 68222), (68224, 68255), (68288, 68295), (68297, 68324), (68331, 68335),
    (68352, 68405), (68416, 68437), (68440, 68466), (68472, 68497), (68521, 68527), (68608, 68680),
    (68736, 68786), (68800, 68850), (68858, 68899), (68912, 68921), (69216, 69246), (69248, 69289),
    (69296, 69297), (69376, 69415), (69424, 69445), (69457, 69460), (69488, 69505), (69552, 69579),
    (69600, 69622), (69635, 69687), (69714, 69743), (69745, 69746), (69749, 69749), (69763, 69807),
    (69840, 69864), (69872, 69881), (69891, 69926), (69942, 69951), (69956, 69956), (69959, 69959),
    (69968, 70002), (70006, 70006), (70019, 70066), (70081, 70084), (70096, 70106), (70108, 70108),
    (70113, 70132), (70144, 70161), (70163, 70187), (70272, 70278), (70280, 70280), (70282, 70285),
    (70287, 70301), (70303, 70312), (70320, 70366), (70384, 70393), (70405, 70412), (70415, 70416),
    (70419, 70440), (70442, 70448), (70450, 70451), (70453, 70457), (70461, 70461), (70480, 70480),
    (70493, 70497), (70656, 70708), (70727, 70730), (70736, 70745), (70751, 70753), (70784, 70831),
    (70852, 70853), (70855, 70855), (70864, 70873), (71040, 71086), (71128, 71131), (71168, 71215),
    (71236, 71236), (71248, 71257), (71296, 71338), (71352, 71352), (71360, 71369), (71424, 71450),
    (71472, 71483), (71488, 71494), (71680, 71723), (71840, 71922), (71935, 71942), (71945, 71945),
    (71948, 71955), (71957, 71958), (71960, 71983), (71999, 71999), (72001, 72001), (72016, 72025),
    (72096, 72103), (72106, 72144), (72161, 72161), (72163, 72163), (72192, 72192), (72203, 72242),
    (72250, 72250), (72272, 72272), (72284, 72329), (72349, 72349), (72368, 72440), (72704, 72712),
    (72714, 72750), (72768, 72768), (72784, 72812), (72818, 72847), (72960, 72966), (72968, 72969),
    (72971, 73008), (73030, 73030), (73040, 73049), (73056, 73061), (73063, 73064), (73066, 73097),
    (73112, 73112), (73120, 73129), (73440, 73458), (73648, 73648), (73664, 73684), (73728, 74649),
    (74752, 74862), (74880, 75075), (77712, 77808), (77824, 78894), (82944, 83526), (92160, 92728),
    (92736, 92766), (92768, 92777), (92784, 92862), (92864, 92873), (92880, 92909), (92928, 92975),
    (92992, 92995), (93008, 93017), (93019, 93025), (93027, 93047), (93053, 93071), (93760, 93846),
    (93952, 94026), (94032, 94032), (94099, 94111), (94176, 94177), (94179, 94179), (94208, 100343),
    (100352, 101589), (101632, 101640), (110576, 110579), (110581, 110587), (110589, 110590), (110592, 110882),
    (110928, 110930), (110948, 110951), (110960, 111355), (113664, 113770), (113776, 113788), (113792, 113800),
    (113808, 113817), (119520, 119539), (119648, 119672), (119808, 119892), (119894, 119964), (119966, 119967),
    (119970, 119970), (119973, 119974), (119977, 119980), (119982, 119993), (119995, 119995), (119997, 120003),
    (120005, 120069), (120071, 120074), (120077, 120084), (120086, 120092), (120094, 120121), (120123, 120126),
    (120128, 120132), (120134, 120134), (120138, 120144), (120146, 120485), (120488, 120512), (120514, 120538),
    (120540, 120570), (120572, 120596), (120598, 120628), (120630, 120654), (120656, 120686), (120688, 120712),
    (120714, 120744), (120746, 120770), (120772, 120779), (120782, 120831), (122624, 122654), (123136, 123180),
    (123191, 123197), (123200, 123209), (123214, 123214), (123536, 123565), (123584, 123627), (123632, 123641),
    (124896, 124902), (124904, 124907), (124909, 124910), (124912, 124926), (124928, 125124), (125127, 125135),
    (125184, 125251), (125259, 125259), (125264, 125273), (126065, 126123), (126125, 126127), (126129, 126132),
    (126209, 126253), (126255, 126269), (126464, 126467), (126469, 126495), (126497, 126498), (126500, 126500),
    (126503, 126503), (126505, 126514), (126516, 126519), (126521, 126521), (126523, 126523), (126530, 126530),
    (126535, 126535), (126537, 126537), (126539, 126539), (126541, 126543), (126545, 126546), (126548, 126548),
    (126551, 126551), (126553, 126553), (126555, 126555), (126557, 126557), (126559, 126559), (126561, 126562),
    (126564, 126564), (126567, 126570), (126572, 126578), (126580, 126583), (126585, 126588), (126590, 126590),
    (126592, 126601), (126603, 126619), (126625, 126627), (126629, 126633), (126635, 126651), (127232, 127244),
    (130032, 130041), (131072, 173791), (173824, 177976), (177984, 178205), (178208, 183969), (183984, 191456),
    (194560, 195101), (196608, 201546)]

/-- Python's `\w` word-character class as matched by
`re.findall(r'[\w]+', text)`: membership in one of the `wordRanges`
codepoint runs.  Unicode-aware, as in the source, whose tokenizer handles
Japanese as well as English text. -/
def pythonWordChar (c : Char) : Bool :=
  wordRanges.any (fun r => r.1 ≤ c.toNat && c.toNat ≤ r.2)

/-- `re.findall(r'[\w]+', text)` over a character list: the maximal runs of
characters satisfying `p`, in order.  The first argument is fuel bounding the
length of the remaining list (the scan consumes at least one character per
step), kept structural so the kernel can evaluate the definition. -/
def findallWord (p : Char → Bool) : Nat → List Char → List (List Char)
  | 0, _ => []
  | _, [] => []
  | fuel + 1, c :: rest =>
    if p c then
      (c :: rest.takeWhile p) :: findallWord p fuel (rest.dropWhile p)
    else findallWord p fuel rest

/-- The codepoints stripped by Python's default `str.strip()`: exactly
those `c` with `chr(c).isspace()` in CPython 3.11. -/
def pyWhitespaceCodes : List Nat :=
  [9, 10, 11, 12, 13, 28, 29, 30, 31, 32, 133, 160, 5760, 8192, 8193,
   8194, 8195, 8196, 8197, 8198, 8199, 8200, 8201, 8202, 8232, 8233,
   8239, 8287, 12288]

/-- Python's default `str.strip()` whitespace class. -/
def pyWhitespace (c : Char) : Bool :=
  pyWhitespaceCodes.contains c.toNat

/-- Python's `str.strip()`: drop leading and trailing whitespace. -/
def pyStrip (w : List Char) : List Char :=
  ((w.dropWhile pyWhitespace).reverse.dropWhile pyWhitespace).reverse

/-- `OCRComparisonManager._tokenize_text`: `re.findall(r'[\w]+', text)`
followed by `[word for word in words if word.strip()]` (a word passes the
comprehension when its stripped form is truthy, i.e. nonempty). -/
def tokenizeText (text : String) : List String :=
  ((findallWord pythonWordChar text.data.length text.data).map
    (fun w => String.mk w)).filter (fun w => pyStrip w.data ≠ [])

/-- `OCRComparisonManager._calculate_similarity_score`: `0.0` when either
text is falsy (empty), else the character-level `SequenceMatcher.ratio`. -/
def calculateSimilarityScore (text1 text2 : String) : ℚ :=
  if text1 = "" ∨ text2 = "" then 0
  else Difflib.ratio text1.data text2.data

/-- `OCRComparisonManager._calculate_matching_rate`: `1.0` when both token
lists are empty, `0.0` when exactly one is, else the word-level
`SequenceMatcher.ratio`. -/
def calculateMatchingRate (easyocr_words paddleocr_words : List String) : ℚ :=
  if easyocr_words = [] ∧ paddleocr_words = [] then 1
  else if easyocr_words = [] ∨ paddleocr_words = [] then 0
  else Difflib.ratio easyocr_words paddleocr_words

/-- One entry of the `differences` list produced by
`OCRComparisonManager._find_differences`. -/
structure DiffOp where
  type : String
  easyocr_range : Nat × Nat
  paddleocr_range : Nat × Nat
  easyocr_words : List String
  paddleocr_words : List String
deriving DecidableEq

/-- `OCRComparisonManager._find_differences`: the non-equal opcodes of the
word-level matcher, with their ranges and slices (the source's
append-in-a-loop over `get_opcodes` emits exactly this filtered map). -/
def findDifferences (easyocr_words paddleocr_words : List String) :
    List DiffOp :=
  ((Difflib.getOpcodes easyocr_words paddleocr_words).filter
    (fun op => op.1 ≠ "equal")).map
    (fun op =>
      ⟨op.1, (op.2.1, op.2.2.1), (op.2.2.2.1, op.2.2.2.2),
        Difflib.sliceList easyocr_words op.2.1 op.2.2.1,
        Difflib.sliceList paddleocr_words op.2.2.2.1 op.2.2.2.2⟩)

/-- Result of `OCRComparisonManager._analyze_words`; the Python sets are
modelled as finite sets (their list iteration order is unspecified). -/
structure WordAnalysis where
  common_words : Finset String
  unique_easy : Finset String
  unique_paddle : Finset String
deriving DecidableEq

def analyzeWords (words1 words2 : List String) : WordAnalysis :=
  ⟨words1.toFinset ∩ words2.toFinset,
    words1.toFinset \ words2.toFinset,
    words2.toFinset \ words1.toFinset⟩

/-- `OCRComparisonManager._generate_diff_html`: the texts are split into
lines and handed to `difflib.HtmlDiff().make_table`; any exception from the
rendering is caught and turned into the empty string.  The renderer is an
external collaborator here, modelled as a function that either produces
markup or fails. -/
def generateDiffHtml
    (makeTable : List String → List String → Except String String)
    (text1 text2 : String) : String :=
  match makeTable (text1.splitOn "\n") (text2.splitOn "\n") with
  | Except.ok h => h
  | Except.error _ => ""

/-- The `comparison` sub-record of one comparison result. -/
structure Comparison where
  matching_rate : ℚ
  similarity_score : ℚ
  differences : List DiffOp
  common_words : Finset String
  unique_easy : Finset String
  unique_paddle : Finset String
  diff_html : String
deriving DecidableEq

/-- One history entry of `compare_ocr_results` (the wall-clock timestamp of
`document_info` is external input and not modelled). -/
structure ComparisonRecord where
  easyocr_text : String
  easyocr_word_count : Nat
  easyocr_char_count : Nat
  paddleocr_text : String
  paddleocr_word_count : Nat
  paddleocr_char_count : Nat
  comparison : Comparison
deriving DecidableEq

/-- `OCRComparisonManager.compare_ocr_results`: tokenize both texts, compute
differences, matching rate, similarity, word sets and the diff rendering,
and package the record that is appended to the history (the method returns
its `comparison` part). -/
def compareOcrResults
    (makeTable : List String → List String → Except String String)
    (easyocr_text paddleocr_text : String) : ComparisonRecord :=
  let easyocr_words := tokenizeText easyocr_text
  let paddleocr_words := tokenizeText paddleocr_text
  ⟨easyocr_text, easyocr_words.length, easyocr_text.length,
    paddleocr_text, paddleocr_words.length, paddleocr_text.length,
    ⟨calculateMatchingRate easyocr_words paddleocr_words,
      calculateSimilarityScore easyocr_text paddleocr_text,
      findDifferences easyocr_words paddleocr_words,
      (analyzeWords easyocr_words paddleocr_words).common_words,
      (analyzeWords easyocr_words paddleocr_words).unique_easy,
      (analyzeWords easyocr_words paddleocr_words).unique_paddle,
      generateDiffHtml makeTable easyocr_text paddleocr_text⟩⟩

/-- Append-only history update performed at the end of
`compare_ocr_results`. -/
def appendHistory (history : List ComparisonRecord)
    (makeTable : List String → List String → Except String String)
    (easyocr_text paddleocr_text : String) : List ComparisonRecord :=
  history ++ [compareOcrResults makeTable easyocr_text paddleocr_text]

/-- `np.mean` over an exact-rational reading of the values. -/
def meanQ (l : List ℚ) : ℚ := l.sum / (l.length : ℚ)

/-- The record built by `OCRComparisonManager.generate_statistics`; `none`
models the bare `{}` returned for an empty history. -/
structure GenStats where
  total_pages : Nat
  average_matching_rate : ℚ
  total_differences : Nat
  word_counts_easyocr : List Nat
  word_counts_paddleocr : List Nat
deriving DecidableEq

def generateStatistics (history : List ComparisonRecord) : Option GenStats :=
  if history = [] then none
  else some ⟨history.length,
    meanQ (history.map (fun c => c.comparison.matching_rate)),
    (history.map (fun c => c.comparison.differences.length)).sum,
    history.map (fun c => c.easyocr_word_count),
    history.map (fun c => c.paddleocr_word_count)⟩

/-- The record built by `OCRComparisonManager.get_detailed_statistics`;
`none` models the bare `{}` returned for an empty history. -/
structure DetailedStats where
  total_comparisons : Nat
  average_matching_rate : ℚ
  average_similarity_score : ℚ
  total_differences : Nat
  common_words_average_count : ℚ
  common_words_total_unique : Nat
  unique_easyocr_average : ℚ
  unique_paddleocr_average : ℚ
deriving DecidableEq

def getDetailedStatistics (history : List ComparisonRecord) :
    Option DetailedStats :=
  if history = [] then none
  else some ⟨history.length,
    meanQ (history.map (fun c => c.comparison.matching_rate)),
    meanQ (history.map (fun c => c.comparison.similarity_score)),
    (history.map (fun c => c.comparison.differences.length)).sum,
    meanQ (history.map (fun c => (c.comparison.common_words.card : ℚ))),
    (history.foldl (fun (s : Finset String) c => s ∪ c.comparison.common_words) ∅).card,
    meanQ (history.map (fun c => (c.comparison.unique_easy.card : ℚ))),
    meanQ (history.map (fun c => (c.comparison.unique_paddle.card : ℚ)))⟩

/-- Per-engine mean word count over a history, as the specification's words
describe it (`per-engine mean word counts`); the source never computes
this. -/
def specMeanWordCountEasy (history : List ComparisonRecord) : ℚ :=
  meanQ (history.map (fun c => (c.easyocr_word_count : ℚ)))

/-- Per-engine mean word count for the second engine, from the
specification's words. -/
def specMeanWordCountPaddle (history : List ComparisonRecord) : ℚ :=
  meanQ (history.map (fun c => (c.paddleocr_word_count : ℚ)))

/-- A renderer that always fails, standing in for `HtmlDiff().make_table`
raising an exception. -/
def errRenderer : List String → List String → Except String String :=
  fun _ _ => Except.error ""

/-- A two-comparison history built through `compare_ocr_results`, used to
evaluate the statistics methods on concrete data. -/
def c3History : List ComparisonRecord :=
  appendHistory (appendHistory [] errRenderer "a" "a") errRenderer
    "b b b b b" "b b b b b b b"

theorem matchingRate_one_iff (w1 w2 : List String) :
    calculateMatchingRate w1 w2 = 1 ↔ w1 = w2 := by
  unfold calculateMatchingRate
  by_cases hb : w1 = [] ∧ w2 = []
  · rw [if_pos hb, hb.1, hb.2]
    simp
  · rw [if_neg hb]
    by_cases ho : w1 = [] ∨ w2 = []
    · rw [if_pos ho]
      constructor
      · intro h
        exact absurd h (by norm_num)
      · intro h
        subst h
        rcases ho with ho | ho <;> exact absurd ⟨ho, ho⟩ hb
    · rw [if_neg ho]
      exact Difflib.ratio_eq_one_iff w1 w2

theorem matchingRate_zero_iff (w1 w2 : List String) :
    calculateMatchingRate w1 w2 = 0 ↔
      (w1 = [] ∧ w2 ≠ []) ∨ (w1 ≠ [] ∧ w2 = []) ∨
        (w1 ≠ [] ∧ w2 ≠ [] ∧ Difflib.totalMatched w1 w2 = 0) := by
  unfold calculateMatchingRate
  by_cases hb : w1 = [] ∧ w2 = []
  · rw [if_pos hb]
    constructor
    · intro h
      exact absurd h (by norm_num)
    · rintro (⟨_, h2⟩ | ⟨h1, _⟩ | ⟨h1, _, _⟩)
      · exact absurd hb.2 h2
      · exact absurd hb.1 h1
      · exact absurd hb.1 h1
  · rw [if_neg hb]
    by_cases ho : w1 = [] ∨ w2 = []
    · rw [if_pos ho]
      constructor
      · intro _
        rcases ho with ho | ho
        · exact Or.inl ⟨ho, fun h2 => hb ⟨ho, h2⟩⟩
        · exact Or.inr (Or.inl ⟨fun h1 => hb ⟨h1, ho⟩, ho⟩)
      · intro _
        rfl
    · rw [if_neg ho]
      push_neg at ho
      have hlen : w1.length + w2.length ≠ 0 := by
        intro h
        exact ho.1 (List.length_eq_zero.mp (by omega))
      rw [Difflib.ratio_eq_zero_iff w1 w2 hlen]
      constructor
      · intro h
        exact Or.inr (Or.inr ⟨ho.1, ho.2, h⟩)
      · rintro (⟨h1, _⟩ | ⟨_, h2⟩ | ⟨_, _, h⟩)
        · exact absurd h1 ho.1
        · exact absurd h2 ho.2
        · exact h

theorem matchingRate_self (w : List String) : calculateMatchingRate w w = 1 :=
  (matchingRate_one_iff w w).2 rfl

theorem similarityScore_self (t : String) (h : t ≠ "") :
    calculateSimilarityScore t t = 1 := by
  unfold calculateSimilarityScore
  rw [if_neg (by simp [h])]
  exact Difflib.ratio_self t.data

theorem findDifferences_self (w : List String) : findDifferences w w = [] := by
  unfold findDifferences
  rw [Difflib.getOpcodes_self]
  by_cases hz : w.length = 0
  · rw [if_pos hz]
    rfl
  · rw [if_neg hz]
    simp

theorem findallWord_nil (p : Char → Bool) :
    ∀ fuel, findallWord p fuel [] = []
  | 0 => rfl
  | _ + 1 => rfl

theorem dropWhile_head_false {β : Type} (p : β → Bool) :
    ∀ (l : List β) (d : β) (r : List β), l.dropWhile p = d :: r → p d = false
  | [], d, r => by
    intro h
    exact absurd h (by simp)
  | c :: l, d, r => by
    by_cases hc : p c
    · rw [List.dropWhile_cons_of_pos hc]
      exact dropWhile_head_false p l d r
    · rw [List.dropWhile_cons_of_neg hc]
      simp only [List.cons.injEq]
      rintro ⟨rfl, rfl⟩
      simpa using hc

theorem splitOnP_structure {β : Type} (q : β → Bool) :
    ∀ l : List β,
      l.splitOnP q =
        (l.takeWhile (fun x => !q x)) ::
          (match l.dropWhile (fun x => !q x) with
           | [] => ([] : List (List β))
           | _ :: r => r.splitOnP q)
  | [] => by simp
  | c :: l => by
    rw [List.splitOnP_cons]
    by_cases hq : q c
    · simp [hq]
    · rw [splitOnP_structure q l]
      simp [hq]

theorem findallWord_eq_splitOnP (p : Char → Bool) :
    ∀ (fuel : Nat) (cs : List Char), cs.length ≤ fuel →
      findallWord p fuel cs =
        (cs.splitOnP (fun c => !p c)).filter (fun w => w ≠ []) := by
  intro fuel
  induction fuel with
  | zero =>
    intro cs hle
    rw [List.length_eq_zero.mp (Nat.le_zero.mp hle)]
    simp [findallWord]
  | succ f ih =>
    intro cs hle
    match cs with
    | [] => simp [findallWord]
    | c :: rest =>
      by_cases hp : p c
      · have hlhs : findallWord p (f + 1) (c :: rest)
            = (c :: rest.takeWhile p) :: findallWord p f (rest.dropWhile p) := by
          simp [findallWord, hp]
        rw [hlhs, splitOnP_structure]
        simp only [Bool.not_not]
        rw [List.takeWhile_cons_of_pos hp, List.dropWhile_cons_of_pos hp,
          List.filter_cons_of_pos (by simp)]
        congr 1
        cases hd : rest.dropWhile p with
        | nil => simp [findallWord_nil]
        | cons d r =>
          have hpd : p d = false := dropWhile_head_false p rest d r hd
          have hlen : (d :: r).length ≤ f := by
            have hsub := (List.dropWhile_sublist (l := rest) p).length_le
            rw [hd] at hsub
            simp only [List.length_cons] at hle hsub ⊢
            omega
          rw [ih (d :: r) hlen, List.splitOnP_cons]
          simp [hpd]
      · have hlhs : findallWord p (f + 1) (c :: rest) = findallWord p f rest := by
          simp [findallWord, hp]
        rw [hlhs, List.splitOnP_cons, if_pos (by simp [hp]),
          List.filter_cons_of_neg (by simp)]
        exact ih rest (by simp only [List.length_cons] at hle; omega)

set_option maxRecDepth 40000

/-- Claim C1: the `matching_rate` of `compare_ocr_results` is `1.0` exactly
when the two token sequences are identical (including both empty), and is
`0.0` exactly when either exactly one side tokenizes to the empty sequence,
or both sides are nonempty and the word-level matcher matches no token at
all.  (Amended from the spec, whose `0.0` case omits the disjoint-nonempty
possibility.) -/
theorem c1_matching_rate_boundary
    (mt : List String → List String → Except String String) (t1 t2 : String) :
    ((compareOcrResults mt t1 t2).comparison.matching_rate = 1 ↔
      tokenizeText t1 = tokenizeText t2) ∧
    ((compareOcrResults mt t1 t2).comparison.matching_rate = 0 ↔
      (tokenizeText t1 = [] ∧ tokenizeText t2 ≠ []) ∨
        (tokenizeText t1 ≠ [] ∧ tokenizeText t2 = []) ∨
        (tokenizeText t1 ≠ [] ∧ tokenizeText t2 ≠ [] ∧
          Difflib.totalMatched (tokenizeText t1) (tokenizeText t2) = 0)) := by
  constructor
  · show calculateMatchingRate (tokenizeText t1) (tokenizeText t2) = 1 ↔ _
    exact matchingRate_one_iff _ _
  · show calculateMatchingRate (tokenizeText t1) (tokenizeText t2) = 0 ↔ _
    exact matchingRate_zero_iff _ _

/-- Claim C1, counterexample to the spec sentence: on the texts `"a"` and
`"b"` both token sequences are nonempty and yet `matching_rate` is `0.0`,
so `0.0` does not hold only when exactly one side is empty. -/
theorem c1_zero_counterexample :
    tokenizeText "a" ≠ [] ∧ tokenizeText "b" ≠ [] ∧
      (compareOcrResults errRenderer "a" "b").comparison.matching_rate = 0 := by
  refine ⟨by decide, by decide, ?_⟩
  show calculateMatchingRate (tokenizeText "a") (tokenizeText "b") = 0
  rw [show tokenizeText "a" = ["a"] from by decide,
    show tokenizeText "b" = ["b"] from by decide]
  exact (matchingRate_zero_iff _ _).2
    (Or.inr (Or.inr ⟨by simp, by simp, by decide⟩))

/-- Claim C2: concatenating, in order, the left slices of all alignment
operations produced by `get_opcodes` for token sequences `a` and `b`
reproduces `a` exactly, and likewise the right slices reproduce `b`. -/
theorem c2_opcode_reconstruction (a b : List String) :
    Difflib.opSlicesL a (Difflib.getOpcodes a b) = a ∧
    Difflib.opSlicesR b (Difflib.getOpcodes a b) = b :=
  Difflib.getOpcodes_reconstruct a b

/-- Claim C4: comparing a non-empty text with itself gives matching rate
`1.0`, similarity score `1.0`, no differences, and empty unique-word sets
on both sides. -/
theorem c4_identity
    (mt : List String → List String → Except String String) (t : String)
    (h : t ≠ "") :
    (compareOcrResults mt t t).comparison.matching_rate = 1 ∧
    (compareOcrResults mt t t).comparison.similarity_score = 1 ∧
    (compareOcrResults mt t t).comparison.differences = [] ∧
    (compareOcrResults mt t t).comparison.unique_easy = ∅ ∧
    (compareOcrResults mt t t).comparison.unique_paddle = ∅ := by
  refine ⟨?_, ?_, ?_, ?_, ?_⟩
  · show calculateMatchingRate (tokenizeText t) (tokenizeText t) = 1
    exact matchingRate_self _
  · show calculateSimilarityScore t t = 1
    exact similarityScore_self t h
  · show findDifferences (tokenizeText t) (tokenizeText t) = []
    exact findDifferences_self _
  · show (analyzeWords (tokenizeText t) (tokenizeText t)).unique_easy = ∅
    simp [analyzeWords]
  · show (analyzeWords (tokenizeText t) (tokenizeText t)).unique_paddle = ∅
    simp [analyzeWords]

/-- Claim C4, witness: the identity properties evaluated at the concrete
non-empty text `"ab"`. -/
theorem c4_identity_witness :
    ("ab" : String) ≠ "" ∧
      ((compareOcrResults errRenderer "ab" "ab").comparison.matching_rate = 1 ∧
        (compareOcrResults errRenderer "ab" "ab").comparison.similarity_score = 1 ∧
        (compareOcrResults errRenderer "ab" "ab").comparison.differences = [] ∧
        (compareOcrResults errRenderer "ab" "ab").comparison.unique_easy = ∅ ∧
        (compareOcrResults errRenderer "ab" "ab").comparison.unique_paddle = ∅) :=
  ⟨by decide, c4_identity errRenderer "ab" (by decide)⟩

/-- Claim C5 (amended): swapping the two inputs preserves both scalar
metrics when the two texts are equal or either text is empty; the spec
claim of unconditional symmetry is refuted by the companion
counterexample. -/
theorem c5_symmetry_on_restricted_inputs (t1 t2 : String)
    (h : t1 = t2 ∨ t1 = "" ∨ t2 = "") :
    calculateMatchingRate (tokenizeText t1) (tokenizeText t2) =
      calculateMatchingRate (tokenizeText t2) (tokenizeText t1) ∧
    calculateSimilarityScore t1 t2 = calculateSimilarityScore t2 t1 := by
  have key : ∀ s1 s2 : String, s1 = "" →
      calculateMatchingRate (tokenizeText s1) (tokenizeText s2) =
        calculateMatchingRate (tokenizeText s2) (tokenizeText s1) ∧
      calculateSimilarityScore s1 s2 = calculateSimilarityScore s2 s1 := by
    intro s1 s2 hs
    subst hs
    constructor
    · rw [show tokenizeText "" = [] from by decide]
      by_cases h2 : tokenizeText s2 = []
      · rw [h2]
      · simp [calculateMatchingRate, h2]
    · unfold calculateSimilarityScore
      rw [if_pos (Or.inl rfl), if_pos (Or.inr rfl)]
  rcases h with h | h | h
  · subst h
    exact ⟨rfl, rfl⟩
  · exact key t1 t2 h
  · have hsym := key t2 t1 h
    exact ⟨hsym.1.symm, hsym.2.symm⟩

/-- Claim C5, witness: symmetry at the concrete pair `("", "ab")`, where
the first text is empty. -/
theorem c5_symmetry_witness :
    (("" : String) = "ab" ∨ ("" : String) = "" ∨ ("ab" : String) = "") ∧
      (calculateMatchingRate (tokenizeText "") (tokenizeText "ab") =
        calculateMatchingRate (tokenizeText "ab") (tokenizeText "") ∧
       calculateSimilarityScore "" "ab" = calculateSimilarityScore "ab" "") :=
  ⟨Or.inr (Or.inl rfl),
    c5_symmetry_on_restricted_inputs "" "ab" (Or.inr (Or.inl rfl))⟩

/-- Claim C5, counterexample to unconditional symmetry: on the token
sequences of `"x u a b c d"` and `"c d v x w a b"` the matching rate is
`6/13` one way and `4/13` the other, and the character-level similarity
score on `"xuabcd"` and `"cdvxwab"` is likewise `6/13` against `4/13`. -/
theorem c5_asymmetry_counterexample :
    calculateMatchingRate (tokenizeText "x u a b c d")
        (tokenizeText "c d v x w a b") = 6 / 13 ∧
    calculateMatchingRate (tokenizeText "c d v x w a b")
        (tokenizeText "x u a b c d") = 4 / 13 ∧
    calculateSimilarityScore "xuabcd" "cdvxwab" = 6 / 13 ∧
    calculateSimilarityScore "cdvxwab" "xuabcd" = 4 / 13 ∧
    (6 / 13 : ℚ) ≠ 4 / 13 := by
  have hw1 : tokenizeText "x u a b c d" = ["x", "u", "a", "b", "c", "d"] := by
    decide
  have hw2 : tokenizeText "c d v x w a b" =
      ["c", "d", "v", "x", "w", "a", "b"] := by decide
  refine ⟨?_, ?_, ?_, ?_, by norm_num⟩
  · rw [hw1, hw2]
    unfold calculateMatchingRate
    rw [if_neg (by simp), if_neg (by simp)]
    unfold Difflib.ratio
    rw [show Difflib.totalMatched ["x", "u", "a", "b", "c", "d"]
        (["c", "d", "v", "x", "w", "a", "b"] : List String) = 3 from by decide]
    show Difflib.calculateRatio 3 13 = 6 / 13
    unfold Difflib.calculateRatio
    norm_num
  · rw [hw1, hw2]
    unfold calculateMatchingRate
    rw [if_neg (by simp), if_neg (by simp)]
    unfold Difflib.ratio
    rw [show Difflib.totalMatched ["c", "d", "v", "x", "w", "a", "b"]
        (["x", "u", "a", "b", "c", "d"] : List String) = 2 from by decide]
    show Difflib.calculateRatio 2 13 = 4 / 13
    unfold Difflib.calculateRatio
    norm_num
  · unfold calculateSimilarityScore
    rw [if_neg (by decide)]
    unfold Difflib.ratio
    rw [show Difflib.totalMatched "xuabcd".data "cdvxwab".data = 3 from by
      decide]
    show Difflib.calculateRatio 3 13 = 6 / 13
    unfold Difflib.calculateRatio
    norm_num
  · unfold calculateSimilarityScore
    rw [if_neg (by decide)]
    unfold Difflib.ratio
    rw [show Difflib.totalMatched "cdvxwab".data "xuabcd".data = 2 from by
      decide]
    show Difflib.calculateRatio 2 13 = 4 / 13
    unfold Difflib.calculateRatio
    norm_num

/-- Claim C6: when the two token sequences are not both empty, the matching
rate equals twice the token count covered by equal-kind opcodes, divided by
the sum of the two sequence lengths. -/
theorem c6_rate_formula (w1 w2 : List String) (h : ¬(w1 = [] ∧ w2 = [])) :
    calculateMatchingRate w1 w2 =
      2 * (Difflib.sumEqual (Difflib.getOpcodes w1 w2) : ℚ) /
        ((w1.length : ℚ) + (w2.length : ℚ)) := by
  rw [Difflib.sumEqual_getOpcodes]
  unfold calculateMatchingRate
  rw [if_neg h]
  by_cases ho : w1 = [] ∨ w2 = []
  · rw [if_pos ho]
    have h0 : Difflib.totalMatched w1 w2 = 0 := by
      rcases ho with ho | ho
      · have hle := (Difflib.totalMatched_le w1 w2).1
        have hl0 : w1.length = 0 := by rw [ho]; rfl
        omega
      · have hle := (Difflib.totalMatched_le w1 w2).2
        have hl0 : w2.length = 0 := by rw [ho]; rfl
        omega
    rw [h0]
    norm_num
  · rw [if_neg ho]
    unfold Difflib.ratio Difflib.calculateRatio
    push_neg at ho
    have hlen : w1.length + w2.length ≠ 0 := by
      intro hc
      exact ho.1 (List.length_eq_zero.mp (by omega))
    rw [if_pos hlen]
    push_cast
    ring

/-- Claim C6, witness: the formula evaluated at `["a"]` against
`["a", "b"]`, where the rate is `2/3`. -/
theorem c6_rate_formula_witness :
    ¬((["a"] : List String) = [] ∧ (["a", "b"] : List String) = []) ∧
      calculateMatchingRate ["a"] ["a", "b"] =
        2 * (Difflib.sumEqual (Difflib.getOpcodes ["a"] ["a", "b"]) : ℚ) /
          (((["a"] : List String).length : ℚ) +
            ((["a", "b"] : List String).length : ℚ)) :=
  ⟨by simp, c6_rate_formula ["a"] ["a", "b"] (by simp)⟩

/-- Claim C7: when the renderer fails, the stored `diff_html` is the empty
string, and every other field of the comparison is the same pure function
of the two texts as always — the failure is contained to the rendering. -/
theorem c7_render_failure_containment
    (mt : List String → List String → Except String String)
    (t1 t2 : String) (e : String)
    (herr : mt (t1.splitOn "\n") (t2.splitOn "\n") = Except.error e) :
    (compareOcrResults mt t1 t2).comparison.diff_html = "" ∧
    (compareOcrResults mt t1 t2).comparison.matching_rate =
      calculateMatchingRate (tokenizeText t1) (tokenizeText t2) ∧
    (compareOcrResults mt t1 t2).comparison.similarity_score =
      calculateSimilarityScore t1 t2 ∧
    (compareOcrResults mt t1 t2).comparison.differences =
      findDifferences (tokenizeText t1) (tokenizeText t2) ∧
    (compareOcrResults mt t1 t2).comparison.common_words =
      (analyzeWords (tokenizeText t1) (tokenizeText t2)).common_words ∧
    (compareOcrResults mt t1 t2).comparison.unique_easy =
      (analyzeWords (tokenizeText t1) (tokenizeText t2)).unique_easy ∧
    (compareOcrResults mt t1 t2).comparison.unique_paddle =
      (analyzeWords (tokenizeText t1) (tokenizeText t2)).unique_paddle := by
  refine ⟨?_, rfl, rfl, rfl, rfl, rfl, rfl⟩
  show generateDiffHtml mt t1 t2 = ""
  unfold generateDiffHtml
  rw [herr]

/-- Claim C7, witness: the containment property at a renderer that always
fails, on the concrete texts `"x"` and `"y z"`. -/
theorem c7_render_failure_witness :
    errRenderer ("x".splitOn "\n") ("y z".splitOn "\n") = Except.error "" ∧
      ((compareOcrResults errRenderer "x" "y z").comparison.diff_html = "" ∧
        (compareOcrResults errRenderer "x" "y z").comparison.matching_rate =
          calculateMatchingRate (tokenizeText "x") (tokenizeText "y z") ∧
        (compareOcrResults errRenderer "x" "y z").comparison.similarity_score =
          calculateSimilarityScore "x" "y z" ∧
        (compareOcrResults errRenderer "x" "y z").comparison.differences =
          findDifferences (tokenizeText "x") (tokenizeText "y z") ∧
        (compareOcrResults errRenderer "x" "y z").comparison.common_words =
          (analyzeWords (tokenizeText "x") (tokenizeText "y z")).common_words ∧
        (compareOcrResults errRenderer "x" "y z").comparison.unique_easy =
          (analyzeWords (tokenizeText "x") (tokenizeText "y z")).unique_easy ∧
        (compareOcrResults errRenderer "x" "y z").comparison.unique_paddle =
          (analyzeWords (tokenizeText "x") (tokenizeText "y z")).unique_paddle) :=
  ⟨rfl, c7_render_failure_containment errRenderer "x" "y z" "" rfl⟩

/-- Claim C8: the tokenizer keeps exactly the maximal runs of
word-constituent characters — for any constituent predicate, scanning a
character list equals splitting it at non-constituent characters and
discarding empty chunks — where the constituent class is Python's
Unicode-aware `\w`: letters, digits and the underscore connector across
scripts, so kana and kanji qualify just as ASCII letters do.  On
`"Page 1: Hello, World!"` the tokenizer yields
`["Page", "1", "Hello", "World"]`, on Japanese text it keeps the non-Latin
runs verbatim, and whitespace-only or punctuation-only input yields no
tokens. -/
theorem c8_tokenizer_splits_on_nonword :
    (∀ (p : Char → Bool) (cs : List Char),
      findallWord p cs.length cs =
        (cs.splitOnP (fun c => !p c)).filter (fun w => w ≠ [])) ∧
    pythonWordChar 'あ' = true ∧ pythonWordChar '語' = true ∧
    pythonWordChar 'テ' = true ∧ pythonWordChar 'A' = true ∧
    pythonWordChar '7' = true ∧ pythonWordChar '_' = true ∧
    pythonWordChar ' ' = false ∧ pythonWordChar '!' = false ∧
    tokenizeText "Page 1: Hello, World!" = ["Page", "1", "Hello", "World"] ∧
    tokenizeText "日本語 テスト 123" = ["日本語", "テスト", "123"] ∧
    tokenizeText "  \t\n " = [] ∧
    tokenizeText ".,;:!?" = [] := by
  refine ⟨?_, by decide, by decide, by decide, by decide, by decide,
    by decide, by decide, by decide, by decide, by decide, by decide,
    by decide⟩
  intro p cs
  exact findallWord_eq_splitOnP p cs.length cs (le_refl _)

/-- Claim C9: statistics over an empty history are a defined empty result
(`none`, the image of Python\x27s bare `{}`), and over any non-empty history
both statistics methods return a populated record. -/
theorem c9_empty_history_defined :
    generateStatistics ([] : List ComparisonRecord) = none ∧
    getDetailedStatistics ([] : List ComparisonRecord) = none ∧
    ∀ history : List ComparisonRecord, history ≠ [] →
      (generateStatistics history).isSome = true ∧
      (getDetailedStatistics history).isSome = true := by
  refine ⟨rfl, rfl, ?_⟩
  intro history h
  constructor
  · unfold generateStatistics
    rw [if_neg h]
    rfl
  · unfold getDetailedStatistics
    rw [if_neg h]
    rfl

/-- Claim C9, witness: a one-entry history built by `compare_ocr_results`
is non-empty and both statistics methods return a record on it. -/
theorem c9_empty_history_witness :
    appendHistory [] errRenderer "a" "b" ≠ [] ∧
      ((generateStatistics (appendHistory [] errRenderer "a" "b")).isSome =
          true ∧
        (getDetailedStatistics (appendHistory [] errRenderer "a" "b")).isSome =
          true) := by
  have hne : appendHistory [] errRenderer "a" "b" ≠ [] := by
    simp [appendHistory]
  exact ⟨hne, c9_empty_history_defined.2.2 _ hne⟩

/-- Claim C10: the similarity score is `0.0` whenever either input text is
the empty string, even if the other is non-empty: the guard in
`_calculate_similarity_score` is one-sided. -/
theorem c10_similarity_empty_guard (t1 t2 : String) (h : t1 = "" ∨ t2 = "") :
    calculateSimilarityScore t1 t2 = 0 := by
  unfold calculateSimilarityScore
  rw [if_pos h]

/-- Claim C10, witness: the guard at the pair `("", "abc")` whose second
component is non-empty. -/
theorem c10_similarity_empty_guard_witness :
    (("" : String) = "" ∨ ("abc" : String) = "") ∧
      calculateSimilarityScore "" "abc" = 0 ∧ ("abc" : String) ≠ "" :=
  ⟨Or.inl rfl, c10_similarity_empty_guard "" "abc" (Or.inl rfl), by decide⟩

theorem c3History_eq :
    c3History = [compareOcrResults errRenderer "a" "a",
      compareOcrResults errRenderer "b b b b b" "b b b b b b b"] := by
  simp [c3History, appendHistory]

theorem rate_rec1 :
    (compareOcrResults errRenderer "a" "a").comparison.matching_rate = 1 := by
  show calculateMatchingRate (tokenizeText "a") (tokenizeText "a") = 1
  exact matchingRate_self _

theorem rate_rec2 :
    (compareOcrResults errRenderer "b b b b b"
      "b b b b b b b").comparison.matching_rate = 5 / 6 := by
  show calculateMatchingRate (tokenizeText "b b b b b")
      (tokenizeText "b b b b b b b") = 5 / 6
  rw [show tokenizeText "b b b b b" = ["b", "b", "b", "b", "b"] from by decide,
    show tokenizeText "b b b b b b b" =
      ["b", "b", "b", "b", "b", "b", "b"] from by decide]
  unfold calculateMatchingRate
  rw [if_neg (by simp), if_neg (by simp)]
  unfold Difflib.ratio
  rw [show Difflib.totalMatched ["b", "b", "b", "b", "b"]
      (["b", "b", "b", "b", "b", "b", "b"] : List String) = 5 from by decide]
  show Difflib.calculateRatio 5 12 = 5 / 6
  unfold Difflib.calculateRatio
  norm_num

theorem sim_rec1 :
    (compareOcrResults errRenderer "a" "a").comparison.similarity_score = 1 := by
  show calculateSimilarityScore "a" "a" = 1
  exact similarityScore_self _ (by decide)

theorem sim_rec2 :
    (compareOcrResults errRenderer "b b b b b"
      "b b b b b b b").comparison.similarity_score = 9 / 11 := by
  show calculateSimilarityScore "b b b b b" "b b b b b b b" = 9 / 11
  unfold calculateSimilarityScore
  rw [if_neg (by decide)]
  unfold Difflib.ratio
  rw [show Difflib.totalMatched "b b b b b".data "b b b b b b b".data = 9
    from by decide]
  show Difflib.calculateRatio 9 22 = 9 / 11
  unfold Difflib.calculateRatio
  norm_num

theorem c3_gen_eval :
    generateStatistics c3History = some ⟨2, 11 / 12, 1, [1, 5], [1, 7]⟩ := by
  rw [c3History_eq]
  unfold generateStatistics
  rw [if_neg (by simp)]
  simp only [List.map_cons, List.map_nil, List.length_cons, List.length_nil,
    List.sum_cons, List.sum_nil, Option.some.injEq, GenStats.mk.injEq]
  refine ⟨trivial, ?_, by decide, by decide, by decide⟩
  rw [rate_rec1, rate_rec2]
  unfold meanQ
  norm_num

theorem c3_det_eval :
    getDetailedStatistics c3History =
      some ⟨2, 11 / 12, 10 / 11, 1, 1, 2, 0, 0⟩ := by
  rw [c3History_eq]
  unfold getDetailedStatistics
  rw [if_neg (by simp)]
  simp only [List.map_cons, List.map_nil, List.length_cons, List.length_nil,
    List.sum_cons, List.sum_nil, List.foldl_cons, List.foldl_nil,
    Option.some.injEq, DetailedStats.mk.injEq]
  refine ⟨trivial, ?_, ?_, by decide, ?_, by decide, ?_, ?_⟩
  · rw [rate_rec1, rate_rec2]
    unfold meanQ
    norm_num
  · rw [sim_rec1, sim_rec2]
    unfold meanQ
    norm_num
  · rw [show (compareOcrResults errRenderer "a"
        "a").comparison.common_words.card = 1 from by decide,
      show (compareOcrResults errRenderer "b b b b b"
        "b b b b b b b").comparison.common_words.card = 1 from by decide]
    unfold meanQ
    norm_num
  · rw [show (compareOcrResults errRenderer "a"
        "a").comparison.unique_easy.card = 0 from by decide,
      show (compareOcrResults errRenderer "b b b b b"
        "b b b b b b b").comparison.unique_easy.card = 0 from by decide]
    unfold meanQ
    norm_num
  · rw [show (compareOcrResults errRenderer "a"
        "a").comparison.unique_paddle.card = 0 from by decide,
      show (compareOcrResults errRenderer "b b b b b"
        "b b b b b b b").comparison.unique_paddle.card = 0 from by decide]
    unfold meanQ
    norm_num

/-- Claim C3 (amended): on any non-empty history, `generate_statistics`
reports the mean matching rate (as a value that multiplied by the history
length gives the sum of the stored rates), the summed difference count,
and the per-engine word counts as lists — not their means — while
`get_detailed_statistics` additionally reports the mean similarity score
and the same mean matching rate and total difference count. -/
theorem c3_statistics_fields (history : List ComparisonRecord)
    (h : history ≠ []) :
    ∃ gs ds, generateStatistics history = some gs ∧
      getDetailedStatistics history = some ds ∧
      gs.average_matching_rate * (history.length : ℚ) =
        (history.map (fun c => c.comparison.matching_rate)).sum ∧
      ds.average_matching_rate = gs.average_matching_rate ∧
      ds.average_similarity_score * (history.length : ℚ) =
        (history.map (fun c => c.comparison.similarity_score)).sum ∧
      gs.total_differences =
        (history.map (fun c => c.comparison.differences.length)).sum ∧
      ds.total_differences = gs.total_differences ∧
      gs.word_counts_easyocr = history.map (fun c => c.easyocr_word_count) ∧
      gs.word_counts_paddleocr =
        history.map (fun c => c.paddleocr_word_count) := by
  have hlen0 : history.length ≠ 0 := fun hc => h (List.length_eq_zero.mp hc)
  have hlenQ : (history.length : ℚ) ≠ 0 := Nat.cast_ne_zero.mpr hlen0
  unfold generateStatistics getDetailedStatistics
  rw [if_neg h, if_neg h]
  refine ⟨_, _, rfl, rfl, ?_, rfl, ?_, rfl, rfl, rfl, rfl⟩
  · show meanQ _ * _ = _
    unfold meanQ
    rw [List.length_map]
    exact div_mul_cancel₀ _ hlenQ
  · show meanQ _ * _ = _
    unfold meanQ
    rw [List.length_map]
    exact div_mul_cancel₀ _ hlenQ

/-- Claim C3, witness: the amended statement evaluated on the concrete
two-entry history `c3History`. -/
theorem c3_statistics_fields_witness :
    c3History ≠ [] ∧
      (∃ gs ds, generateStatistics c3History = some gs ∧
        getDetailedStatistics c3History = some ds ∧
        gs.average_matching_rate * (c3History.length : ℚ) =
          (c3History.map (fun c => c.comparison.matching_rate)).sum ∧
        ds.average_matching_rate = gs.average_matching_rate ∧
        ds.average_similarity_score * (c3History.length : ℚ) =
          (c3History.map (fun c => c.comparison.similarity_score)).sum ∧
        gs.total_differences =
          (c3History.map (fun c => c.comparison.differences.length)).sum ∧
        ds.total_differences = gs.total_differences ∧
        gs.word_counts_easyocr = c3History.map (fun c => c.easyocr_word_count) ∧
        gs.word_counts_paddleocr =
          c3History.map (fun c => c.paddleocr_word_count)) := by
  have hne : c3History ≠ [] := by simp [c3History, appendHistory]
  exact ⟨hne, c3_statistics_fields c3History hne⟩

/-- Claim C3, counterexample to the spec sentence: on the concrete history
`c3History` the per-engine mean word counts are `3` and `4`, but the two
statistics records evaluate to explicit literals in which no numeric field
equals either mean (the word counts are stored as lists, not averaged),
and `generate_statistics` carries no similarity mean at all. -/
theorem c3_no_mean_word_counts_counterexample :
    c3History ≠ [] ∧
    specMeanWordCountEasy c3History = 3 ∧
    specMeanWordCountPaddle c3History = 4 ∧
    generateStatistics c3History = some ⟨2, 11 / 12, 1, [1, 5], [1, 7]⟩ ∧
    getDetailedStatistics c3History =
      some ⟨2, 11 / 12, 10 / 11, 1, 1, 2, 0, 0⟩ ∧
    ((3 : ℚ) ≠ 2 ∧ (3 : ℚ) ≠ 11 / 12 ∧ (3 : ℚ) ≠ 1 ∧ (3 : ℚ) ≠ 10 / 11 ∧
      (3 : ℚ) ≠ 0 ∧ (4 : ℚ) ≠ 2 ∧ (4 : ℚ) ≠ 11 / 12 ∧ (4 : ℚ) ≠ 1 ∧
      (4 : ℚ) ≠ 10 / 11 ∧ (4 : ℚ) ≠ 0) := by
  refine ⟨by simp [c3History, appendHistory], ?_, ?_, c3_gen_eval, c3_det_eval,
    by norm_num⟩
  · unfold specMeanWordCountEasy
    rw [c3History_eq]
    simp only [List.map_cons, List.map_nil]
    rw [show (compareOcrResults errRenderer "a" "a").easyocr_word_count = 1
        from by decide,
      show (compareOcrResults errRenderer "b b b b b"
        "b b b b b b b").easyocr_word_count = 5 from by decide]
    unfold meanQ
    norm_num
  · unfold specMeanWordCountPaddle
    rw [c3History_eq]
    simp only [List.map_cons, List.map_nil]
    rw [show (compareOcrResults errRenderer "a" "a").paddleocr_word_count = 1
        from by decide,
      show (compareOcrResults errRenderer "b b b b b"
        "b b b b b b b").paddleocr_word_count = 7 from by decide]
    unfold meanQ
    norm_num

end OCRComparison
